import Mathlib

/-!
Shallow embedding of the pytest-mcp-server core workflow: the failure
registry (`PytestFailureTool.execute`), the nine-principle debug step
progression engine (`DebugWithPrincipleTool.execute`), the failure info
lookup (`GetFailureInfoTool.execute`) and the failure grouping / analytics
engine (`FailureAnalyticsTool`).  Stores that the TypeScript code keeps in
flat JSON files (`failures.json`, `debug_sessions.json`) are modelled as
in-memory association lists keyed by string, matching the JS object maps
loaded by `fs.readFileSync` + `JSON.parse`.  ISO-8601 timestamps are
modelled as epoch milliseconds (`Nat`): JS `Date` comparisons on valid
ISO strings coincide with numeric comparison of epoch milliseconds.
-/

namespace Pytest

/-- A registered pytest failure, mirroring the `FailureRecord` interface. -/
structure FailureRecord where
  id : String
  timestamp : Nat
  status : String
  current_debug_step : Nat
  test_name : String
  file_path : String
  line_number : Int
  error_message : String
  traceback : String
  locals : List (String × String)
  deriving DecidableEq, Repr

/-- One application of a debugging principle, mirroring `DebugStep`. -/
structure DebugStep where
  step : Nat
  name : String
  status : String
  started_at : Nat
  completed_at : Option Nat
  llm_analysis : Option String
  deriving DecidableEq, Repr

/-- A per-failure debugging session, mirroring `DebugSession`. -/
structure DebugSession where
  id : String
  failure_id : String
  created_at : Nat
  debug_steps : List DebugStep
  deriving DecidableEq, Repr

/-- The two flat-file stores the debug engine reads and rewrites:
`failures.json` and `debug_sessions.json`, as id-keyed maps. -/
structure Stores where
  failures : List (String × FailureRecord)
  sessions : List (String × DebugSession)
  deriving DecidableEq, Repr

/-- Lookup in a JS-object-style string-keyed map (`obj[k]`). -/
def lookupA {α : Type} : List (String × α) → String → Option α
  | [], _ => none
  | p :: rest, k => if p.1 = k then some p.2 else lookupA rest k

/-- Assignment in a JS-object-style map (`obj[k] = v`): replaces the
existing entry in place, or appends a new entry at the end. -/
def setA {α : Type} : List (String × α) → String → α → List (String × α)
  | [], k, v => [(k, v)]
  | p :: rest, k, v => if p.1 = k then (k, v) :: rest else p :: setA rest k v

/-- In-place update of the entry at a key, used for group accumulation. -/
def updateA {α : Type} (f : α → α) : List (String × α) → String → List (String × α)
  | [], _ => []
  | p :: rest, k => if p.1 = k then (p.1, f p.2) :: rest else p :: updateA f rest k

/-- JS stable sort (`Array.prototype.sort` with a user comparator):
insert an element before the first element it must precede. -/
def orderedInsert {α : Type} (le : α → α → Bool) (a : α) : List α → List α
  | [] => [a]
  | b :: l => if le a b then a :: b :: l else b :: orderedInsert le a l

/-- JS `Array.prototype.sort` with a consistent comparator is a stable
sort, whose result is uniquely determined; insertion sort realizes it. -/
def stableSort {α : Type} (le : α → α → Bool) : List α → List α
  | [] => []
  | a :: l => orderedInsert le a (stableSort le l)

/-- One entry of the fixed `DEBUG_PRINCIPLES` table. -/
structure Principle where
  number : Nat
  name : String
  description : String
  prompt : String
  deriving DecidableEq, Repr

/-- The fixed table of the nine debugging principles (names and display
text verbatim from the source; prompts elided to the name where unused
by any claim are still kept faithful for `name`/`description`). -/
def DEBUG_PRINCIPLES : List Principle :=
  [ { number := 1, name := "Understand the System",
      description := "Gain high-level awareness of what the system and test are supposed to do.",
      prompt := "You are debugging a test. Summarize what this test is intended to do and identify the system components it touches." },
    { number := 2, name := "Make It Fail",
      description := "Reproduce the failure consistently, eliminate flakiness.",
      prompt := "Analyze the logs and inputs to determine if the test failure is reproducible. If it seems flaky, suggest test isolation strategies." },
    { number := 3, name := "Quit Thinking and Look",
      description := "Avoid assumptions and inspect actual runtime values and logs.",
      prompt := "Here are the runtime logs and variable states at failure. Highlight anything that looks suspicious or unexpected." },
    { number := 4, name := "Divide and Conquer",
      description := "Narrow down where in the code the issue is occurring.",
      prompt := "Given the stack trace and code, suggest a narrower scope where the bug likely resides." },
    { number := 5, name := "Change One Thing at a Time",
      description := "Suggest isolated experiments to test assumptions.",
      prompt := "Propose a minimal input or configuration change that could validate an assumption or rule out a cause." },
    { number := 6, name := "Keep an Audit Trail",
      description := "Maintain a history of tests, changes, and observations.",
      prompt := "Here is the audit trail of changes. Suggest what changed right before the bug appeared." },
    { number := 7, name := "Check the Plug",
      description := "Verify basic configuration and environment issues.",
      prompt := "Look for missing config, uninitialized mocks, or broken imports that could cause the test to fail before it even runs meaningfully." },
    { number := 8, name := "Get a Fresh View",
      description := "Rethink the problem from another perspective (like a junior dev).",
      prompt := "Imagine you're seeing this failure for the first time. What would you ask or check differently?" },
    { number := 9, name := "If You Didn't Fix It, It Ain't Fixed",
      description := "Verify your fix worked and didn't just mask the issue.",
      prompt := "We applied a fix. The test now passes, but did we really fix the issue or just silence the symptoms?" } ]

/-- JS array read `DEBUG_PRINCIPLES[i]` for a possibly negative index:
out-of-range reads yield `undefined` (here `none`). -/
def principleAt (i : Int) : Option Principle :=
  if i < 0 then none else DEBUG_PRINCIPLES.get? i.toNat

/-- Display name of principle `n` (`DEBUG_PRINCIPLES[n-1].name`); the
engine only reads it at indices it has validated to lie in range. -/
def principleName (n : Nat) : String :=
  match principleAt ((n : Int) - 1) with
  | some p => p.name
  | none => ""

/-- Caller-supplied data of `register_pytest_failure`. -/
structure FailureInput where
  test_name : String
  file_path : String
  line_number : Int
  error_message : String
  traceback : String
  locals : List (String × String)
  deriving DecidableEq, Repr

/-- The empty pair of stores (fresh `failures.json` / `debug_sessions.json`). -/
def initialStores : Stores := { failures := [], sessions := [] }

/-- `PytestFailureTool.execute`: registers a failure (id = `Date.now()`
as a string, `status = "new"`, `current_debug_step = 1`) and creates the
associated debug session holding a single pending step-1 entry.  Returns
the updated stores together with `failureId` and `sessionId`. -/
def registerFailure (st : Stores) (now : Nat) (inp : FailureInput) :
    Stores × String × String :=
  let failureId := toString now
  let failure : FailureRecord :=
    { id := failureId, timestamp := now, status := "new", current_debug_step := 1,
      test_name := inp.test_name, file_path := inp.file_path,
      line_number := inp.line_number, error_message := inp.error_message,
      traceback := inp.traceback, locals := inp.locals }
  let sessionId := "session_" ++ failureId
  let session : DebugSession :=
    { id := sessionId, failure_id := failureId, created_at := now,
      debug_steps :=
        [ { step := 1, name := "Understand the System", status := "pending",
            started_at := now, completed_at := none, llm_analysis := none } ] }
  ({ failures := setA st.failures failureId failure,
     sessions := setA st.sessions sessionId session }, failureId, sessionId)

/-- JS truthiness defaulting `input.principle_number || failure.current_debug_step`:
an absent value, and also an explicit `0` (falsy), fall back to the default. -/
def jsOrNat (p : Option Nat) (d : Nat) : Nat :=
  match p with
  | none => d
  | some k => if k = 0 then d else k

/-- Error payloads returned by `DebugWithPrincipleTool.execute`. -/
inductive ApplyError where
  | notFound (failure_id : String)
  | invalidPrinciple (n : Nat)
  deriving DecidableEq, Repr

/-- The success payload of `DebugWithPrincipleTool.execute`. -/
structure ApplyResult where
  message : String
  principle_number : Nat
  principle_name : String
  analysis : String
  next_principle : Option (Nat × String × String)
  is_complete : Bool
  deriving DecidableEq, Repr

/-- A fresh `pending` step entry as pushed by the engine. -/
def newPendingStep (now : Nat) (k : Nat) : DebugStep :=
  { step := k, name := principleName k, status := "pending",
    started_at := now, completed_at := none, llm_analysis := none }

/-- The lazily created session used when `sessions[sessionId]` is absent. -/
def freshSession (now : Nat) (fid : String) : DebugSession :=
  { id := "session_" ++ fid, failure_id := fid, created_at := now, debug_steps := [] }

/-- Find-or-create of the `DebugStep` for the applied principle: if no
entry with this step number exists, push a fresh pending one. -/
def ensureStep (now : Nat) (k : Nat) (steps : List DebugStep) : List DebugStep :=
  if (steps.find? (fun s => s.step = k)).isSome then steps
  else steps ++ [newPendingStep now k]

/-- Overwrite of the found step entry: sets `status = "completed"`,
stamps `completed_at` and stores the analysis (first matching entry, as
`Array.prototype.find` returns the first match). -/
def completeStep : List DebugStep → Nat → Nat → String → List DebugStep
  | [], _, _, _ => []
  | s :: rest, k, now, a =>
    if s.step = k then
      { s with status := "completed", completed_at := some now,
               llm_analysis := some a } :: rest
    else s :: completeStep rest k now a

/-- Pre-creation of the next principle's pending placeholder when
`principleNumber < 9` and no entry for it exists yet. -/
def maybeAddNext (now : Nat) (k : Nat) (steps : List DebugStep) : List DebugStep :=
  if k < 9 ∧ ¬ steps.any (fun s => s.step = min (k + 1) 9) then
    steps ++ [newPendingStep now (min (k + 1) 9)]
  else steps

/-- The state and result updates of a validated `debug_with_principle`
call (everything after the two guards in the source). -/
def applyOk (st : Stores) (now : Nat) (fid : String) (failure : FailureRecord)
    (k : Nat) (analysis : String) : Stores × ApplyResult :=
  let sessionId := "session_" ++ fid
  let session := (lookupA st.sessions sessionId).getD (freshSession now fid)
  let steps1 := completeStep (ensureStep now k session.debug_steps) k now analysis
  let next := min (k + 1) 9
  let steps2 := maybeAddNext now k steps1
  let failure' := { failure with current_debug_step := next }
  let session' := { session with debug_steps := steps2 }
  ({ failures := setA st.failures fid failure',
     sessions := setA st.sessions sessionId session' },
   { message := "Successfully applied debug principle " ++ toString k ++ ": " ++ principleName k,
     principle_number := k,
     principle_name := principleName k,
     analysis := analysis,
     next_principle :=
       if k < 9 then
         match principleAt ((next : Int) - 1) with
         | some p => some (next, p.name, p.description)
         | none => none
       else none,
     is_complete := 9 ≤ k })

/-- `DebugWithPrincipleTool.execute`: looks up the failure, defaults the
principle number (JS `||`), validates it against `[1,9]`, marks the step
completed with the analysis, advances `current_debug_step` to
`min(principleNumber + 1, 9)` and pre-creates the next pending step. -/
def debugWithPrinciple (st : Stores) (now : Nat) (fid : String)
    (pn : Option Nat) (analysis : String) : Except ApplyError (Stores × ApplyResult) :=
  match lookupA st.failures fid with
  | none => .error (.notFound fid)
  | some failure =>
    let principleNumber := jsOrNat pn failure.current_debug_step
    if principleNumber < 1 ∨ 9 < principleNumber then
      .error (.invalidPrinciple principleNumber)
    else
      .ok (applyOk st now fid failure principleNumber analysis)

/-- The store transition of one `debug_with_principle` call: an error
response leaves both files untouched. -/
def applyPrincipleStores (st : Stores) (now : Nat) (fid : String)
    (pn : Option Nat) (analysis : String) : Stores :=
  match debugWithPrinciple st now fid pn analysis with
  | .ok r => r.1
  | .error _ => st

/-- Stores reachable from empty files through the two mutating core
operations, registration and principle application. -/
inductive Reachable : Stores → Prop where
  | init : Reachable initialStores
  | register (st : Stores) (now : Nat) (inp : FailureInput) :
      Reachable st → Reachable (registerFailure st now inp).1
  | applyStep (st : Stores) (now : Nat) (fid : String) (pn : Option Nat) (a : String) :
      Reachable st → Reachable (applyPrincipleStores st now fid pn a)

/-! ### Failure grouping / analytics engine (`FailureAnalyticsTool`) -/

/-- A derived failure group, mirroring the object built in
`FailureAnalyticsTool.groupFailures`. -/
structure FailureGroup where
  id : String
  name : String
  pattern : String
  count : Nat
  failures : List String
  common_error_type : String
  root_cause_hypothesis : String
  first_seen : Nat
  last_seen : Nat
  deriving DecidableEq, Repr

/-- Digit-run normalization `replace(/[0-9]+/g, 'N')`: each maximal run
of ASCII digits collapses to a single `N`.  The Boolean argument tracks
whether the previous character was part of a digit run. -/
def replDigits : Bool → List Char → List Char
  | _, [] => []
  | inRun, c :: rest =>
    if c.isDigit then (if inRun then replDigits true rest else 'N' :: replDigits true rest)
    else c :: replDigits false rest

/-- Quoted-substring normalization `replace(/q[^q]*q/g, placeholder)` for a
quote character `q`: left-to-right, non-overlapping; a quote with no later
closing quote matches nothing and is emitted verbatim (with the buffered
characters after it, which contain no quote). -/
def replQuoted (q : Char) (pl : List Char) : Option (List Char) → List Char → List Char
  | none, [] => []
  | some buf, [] => q :: buf.reverse
  | none, c :: rest =>
    if c = q then replQuoted q pl (some []) rest else c :: replQuoted q pl none rest
  | some buf, c :: rest =>
    if c = q then pl ++ replQuoted q pl none rest else replQuoted q pl (some (c :: buf)) rest

/-- JS `String.prototype.trim`: strips leading and trailing whitespace. -/
def trimChars (l : List Char) : List Char :=
  ((l.dropWhile Char.isWhitespace).reverse.dropWhile Char.isWhitespace).reverse

/-- `FailureAnalyticsTool.extractErrorPattern`: digit runs to `N`,
single-quoted substrings to `'VALUE'`, double-quoted substrings to
`"VALUE"`, then trim. -/
def extractErrorPattern (errorMessage : String) : String :=
  String.mk (trimChars
    (replQuoted '"' "\"VALUE\"".data none
      (replQuoted '\'' "'VALUE'".data none
        (replDigits false errorMessage.data))))

/-- The leading-error-type regex `/^([A-Za-z]+Error|AssertionError|Exception):/`:
matches iff the maximal leading ASCII-letter run is immediately followed by
`:` and either ends in `Error` with at least one letter before it, or is
exactly `Exception`; the captured group is that letter run. -/
def errorTypeMatch (msg : String) : Option String :=
  let run := msg.data.takeWhile Char.isAlpha
  let rest := msg.data.drop run.length
  if rest.head? = some ':' ∧
      (("Error".data.isSuffixOf run ∧ 5 < run.length) ∨ run = "Exception".data) then
    some (String.mk run)
  else none

/-- `FailureAnalyticsTool.determineErrorType`: the captured error type,
falling back to `"Unknown Error"` (with a space) when the regex fails. -/
def determineErrorType (f : FailureRecord) : String :=
  match errorTypeMatch f.error_message with
  | some t => t
  | none => "Unknown Error"

/-- Substring containment, JS `String.prototype.includes`. -/
def containsSub (needle haystack : List Char) : Bool :=
  (List.range (haystack.length + 1)).any (fun i => needle.isPrefixOf (haystack.drop i))

/-- `FailureAnalyticsTool.generateHypothesis`: fixed lookup keyed by the
extracted error type. -/
def generateHypothesis (f : FailureRecord) : String :=
  let errorType := determineErrorType f
  if errorType = "AssertionError" then
    "Expected values don't match actual results. Possible regression in functionality."
  else if errorType = "TypeError" then
    "Incorrect type handling. Possible data structure change or unexpected input format."
  else if errorType = "AttributeError" ∨ containsSub "NameError".data errorType.data then
    "Missing attribute or variable. Possible refactoring issue or missing initialization."
  else if containsSub "ImportError".data errorType.data then
    "Problem with imports. Possible missing dependency or incorrect import path."
  else if containsSub "TimeoutError".data errorType.data then
    "Operation timed out. Possible performance regression or deadlock."
  else
    "Unknown error pattern. Requires individual investigation."

/-- `path.basename` (POSIX): the part of the path after the last `/`. -/
def basename (p : String) : String :=
  String.mk ((p.data.reverse.takeWhile (fun c => ¬ c = '/')).reverse)

/-- The group key and stored pattern chosen for a failure, per the
`group_by` mode (`error_type` / `file_path` / `pattern`; any other mode
leaves both as the empty string, as in the source's if-chain). -/
def groupKeyAndPattern (groupBy : String) (f : FailureRecord) : String × String :=
  if groupBy = "error_type" then
    (match errorTypeMatch f.error_message with
     | some t => t
     | none => "UnknownError",
     extractErrorPattern f.error_message)
  else if groupBy = "file_path" then
    (f.file_path, "Failures in " ++ basename f.file_path)
  else if groupBy = "pattern" then
    (extractErrorPattern f.error_message, extractErrorPattern f.error_message)
  else ("", "")

/-- The generated group id `group_${Date.now()}_${ordinal}`. -/
def mkGroupId (now ordinal : Nat) : String :=
  "group_" ++ toString now ++ "_" ++ toString ordinal

/-- The freshly created group for a key, with the generated id
`group_${Date.now()}_${Object.keys(groups).length}`. -/
def mkNewGroup (now : Nat) (ordinal : Nat) (kp : String × String) (f : FailureRecord) :
    FailureGroup :=
  { id := mkGroupId now ordinal,
    name := kp.1 ++ " Failures",
    pattern := kp.2,
    count := 0,
    failures := [],
    common_error_type := determineErrorType f,
    root_cause_hypothesis := generateHypothesis f,
    first_seen := f.timestamp,
    last_seen := f.timestamp }

/-- The per-member group update: bump `count`, append the member id, and
widen the `first_seen`/`last_seen` window. -/
def updateGroup (f : FailureRecord) (g : FailureGroup) : FailureGroup :=
  let g := { g with count := g.count + 1, failures := g.failures ++ [f.id] }
  let g := if f.timestamp < g.first_seen then { g with first_seen := f.timestamp } else g
  if g.last_seen < f.timestamp then { g with last_seen := f.timestamp } else g

/-- One iteration of the `failures.forEach` loop in `groupFailures`:
create the group for the failure's key when absent, then apply the
per-member update to the entry at that key. -/
def groupStep (now : Nat) (groupBy : String) (acc : List (String × FailureGroup))
    (f : FailureRecord) : List (String × FailureGroup) :=
  updateA (updateGroup f)
    (if (lookupA acc (groupKeyAndPattern groupBy f).1).isSome then acc
     else acc ++ [((groupKeyAndPattern groupBy f).1,
       mkNewGroup now acc.length (groupKeyAndPattern groupBy f) f)])
    (groupKeyAndPattern groupBy f).1

/-- `FailureAnalyticsTool.groupFailures`: accumulate groups keyed by the
chosen criterion and return `Object.values` of the map. -/
def groupFailures (now : Nat) (failures : List FailureRecord) (groupBy : String) :
    List FailureGroup :=
  (failures.foldl (groupStep now groupBy) []).map Prod.snd

/-- `FailureAnalyticsTool.calculatePriority`: member count, plus 5 when
the most recent member is within 24 hours of the current instant
(`(now - last_seen) / 3600000 < 24`, i.e. `now - last_seen < 86400000`
milliseconds; with truncated `Nat` subtraction a future `last_seen`
yields 0, granting the bonus exactly as JS does for a negative
difference), plus 10 for the critical error types. -/
def calculatePriority (now : Nat) (g : FailureGroup) : Nat :=
  let priority := g.count
  let priority := if now - g.last_seen < 86400000 then priority + 5 else priority
  if ["SecurityError", "DataCorruptionError"].contains g.common_error_type then priority + 10
  else priority

/-- `FailureAnalyticsTool.generateTriageAction`: the banded triage text. -/
def generateTriageAction (now : Nat) (g : FailureGroup) : String :=
  let priority := calculatePriority now g
  if 15 < priority then
    "URGENT: Investigate immediately - " ++ g.common_error_type ++ " affecting "
      ++ toString g.count ++ " tests"
  else if 10 < priority then
    "HIGH: Assign to developer for investigation - likely a regression in " ++ g.pattern
  else if 5 < priority then
    "MEDIUM: Schedule investigation - " ++ g.common_error_type ++ " needs attention"
  else
    "LOW: Monitor for increased frequency - " ++ toString g.count ++ " occurrences of "
      ++ g.common_error_type

/-- One triage recommendation inside the insights block. -/
structure TriageRec where
  group_id : String
  priority : Nat
  recommendation : String
  deriving DecidableEq, Repr

/-- The `insights` block of the analytics output. -/
structure Insights where
  total_failure_count : Nat
  group_count : Nat
  most_common_error : String
  error_distribution : List (String × Nat)
  triage_recommendations : List TriageRec
  deriving DecidableEq, Repr

/-- `FailureAnalyticsTool.generateInsights`, applied after the in-place
`groups.sort((a, b) => b.count - a.count)` has ordered the group list. -/
def generateInsights (now : Nat) (sorted : List FailureGroup) : Insights :=
  let totalFailures := sorted.foldl (fun s g => s + g.count) 0
  let dist := sorted.foldl
    (fun (d : List (String × Nat)) g =>
      if (lookupA d g.common_error_type).isSome then
        updateA (fun n => n + g.count) d g.common_error_type
      else d ++ [(g.common_error_type, g.count)]) []
  let triage := stableSort (fun a b => b.priority ≤ a.priority)
    (sorted.map (fun g =>
      { group_id := g.id, priority := calculatePriority now g,
        recommendation := generateTriageAction now g }))
  { total_failure_count := totalFailures,
    group_count := sorted.length,
    most_common_error :=
      match sorted.head? with
      | some g => g.common_error_type
      | none => "None",
    error_distribution := dist,
    triage_recommendations := triage }

/-! Calendar arithmetic for the `month` time window (`setMonth(getMonth() - 1)`),
via the standard civil-date conversion; the local time zone is modelled as UTC.
JS does not clamp the day-of-month, and `daysFromCivil` extrapolates the day
linearly exactly as JS rolls over. -/

/-- Days-since-epoch to `(year, month, day)` (proleptic Gregorian). -/
def civilFromDays (z0 : Int) : Int × Int × Int :=
  let z := z0 + 719468
  let era := z.ediv 146097
  let doe := z - era * 146097
  let yoe := (doe - doe.ediv 1460 + doe.ediv 36524 - doe.ediv 146096).ediv 365
  let y := yoe + era * 400
  let doy := doe - (365 * yoe + yoe.ediv 4 - yoe.ediv 100)
  let mp := (5 * doy + 2).ediv 153
  let d := doy - (153 * mp + 2).ediv 5 + 1
  let m := mp + (if mp < 10 then 3 else -9)
  (y + (if m ≤ 2 then 1 else 0), m, d)

/-- `(year, month, day)` to days-since-epoch; `d` may be out of range and
extrapolates linearly (JS `Date` rollover). -/
def daysFromCivil (y0 m d : Int) : Int :=
  let y := y0 - (if m ≤ 2 then 1 else 0)
  let era := y.ediv 400
  let yoe := y - era * 400
  let doy := (153 * (m + (if 2 < m then -3 else 9)) + 2).ediv 5 + d - 1
  let doe := yoe * 365 + yoe.ediv 4 - yoe.ediv 100 + doy
  era * 146097 + doe - 719468

/-- The instant one calendar month before `now` (`setMonth(getMonth() - 1)`),
keeping the time of day. -/
def monthAgoMillis (now : Nat) : Int :=
  let z := (now : Int).ediv 86400000
  let msOfDay := (now : Int).emod 86400000
  let ymd := civilFromDays z
  let y' := if ymd.2.1 = 1 then ymd.1 - 1 else ymd.1
  let m' := if ymd.2.1 = 1 then (12 : Int) else ymd.2.1 - 1
  daysFromCivil y' m' ymd.2.2 * 86400000 + msOfDay

/-- The time-range predicate of the filter in `FailureAnalyticsTool.execute`:
`today` compares calendar dates, `week` is now minus 7 days, `month` is one
calendar month back; any other non-`all` value falls through and admits
every failure. -/
def timeKeep (now : Nat) (timeRange : String) (ts : Nat) : Bool :=
  if timeRange ≠ "all" then
    if timeRange = "today" then ts / 86400000 = now / 86400000
    else if timeRange = "week" then now - 7 * 86400000 ≤ ts
    else if timeRange = "month" then monthAgoMillis now ≤ (ts : Int)
    else true
  else true

/-- The whole filter predicate: drop resolved failures unless
`include_resolved`, then apply the time-range window. -/
def filterKeep (now : Nat) (timeRange : String) (includeResolved : Bool)
    (f : FailureRecord) : Bool :=
  if ¬ includeResolved ∧ f.status = "resolved" then false
  else timeKeep now timeRange f.timestamp

/-- JS truthiness defaulting for optional string inputs (`input.x || 'd'`):
absent or empty strings fall back to the default. -/
def jsOrStr (o : Option String) (d : String) : String :=
  match o with
  | none => d
  | some s => if s = "" then d else s

/-- The full response object of `analyze_failures`. -/
structure AnalyzeOutput where
  total_failures : Nat
  group_count : Nat
  groups : List FailureGroup
  insights : Insights
  group_by : String
  time_range : String
  deriving DecidableEq, Repr

/-- `FailureAnalyticsTool.execute` (pure part): default the inputs,
filter the stored failures, group them, sort the group list in place by
descending count (done inside `generateInsights` in the source) and
assemble the response.  The persisted-group merge side effect is not
modelled; no claim concerns it. -/
def executeAnalyze (now : Nat) (store : List FailureRecord)
    (group_by time_range : Option String) (include_resolved : Option Bool) :
    AnalyzeOutput :=
  let groupBy := jsOrStr group_by "error_type"
  let timeRange := jsOrStr time_range "all"
  let includeResolved := include_resolved.getD false
  let filtered := store.filter (filterKeep now timeRange includeResolved)
  let sorted := stableSort (fun a b => b.count ≤ a.count) (groupFailures now filtered groupBy)
  { total_failures := filtered.length,
    group_count := sorted.length,
    groups := sorted,
    insights := generateInsights now sorted,
    group_by := groupBy,
    time_range := timeRange }

/-! ### Failure info lookup (`GetFailureInfoTool`) -/

/-- Failure modes of `GetFailureInfoTool.execute`: the thrown not-found
error, and the runtime `TypeError` that reading `.name` of `undefined`
would raise if `current_debug_step` ever left `[1,9]`. -/
inductive InfoError where
  | notFound (message : String)
  | principleIndexCrash
  deriving DecidableEq, Repr

/-- The failure part of the `get_failure_info` response. -/
structure InfoFailure where
  id : String
  timestamp : Nat
  status : String
  test_name : String
  file_path : String
  line_number : Int
  error_message : String
  traceback : String
  locals : List (String × String)
  deriving DecidableEq, Repr

/-- One entry of `completed_principles`. -/
structure CompletedEntry where
  number : Nat
  name : String
  analysis : Option String
  completed_at : Option Nat
  deriving DecidableEq, Repr

/-- The `debugging` part of the `get_failure_info` response. -/
structure DebuggingInfo where
  current_principle : Principle
  completed_principles : List CompletedEntry
  pending_principles : List (Nat × String)
  progress_completed : Nat
  progress_total : Nat
  progress_percentage : Nat
  deriving DecidableEq, Repr

/-- The success payload of `get_failure_info`. -/
structure InfoResult where
  failure : InfoFailure
  debugging : DebuggingInfo
  deriving DecidableEq, Repr

/-- `Math.round(x / 9 * 100)` for `x` completed steps out of 9:
`floor(x * 100 / 9 + 1/2) = (200 * x + 9) / 18` in integer arithmetic. -/
def progressPercentage (completed : Nat) : Nat :=
  (200 * completed + 9) / 18

/-- `GetFailureInfoTool.execute` (the variant returning debugging
progress): a missing id throws the not-found error; otherwise the
response pairs the failure's fields with the current principle, the
completed and pending step lists and a progress summary.  The session
defaults to an empty one when absent (its placeholder `created_at` is
never read).  The sorted copy of the completed steps only feeds the
(unreturned) latest-step local and the completed count. -/
def getFailureInfo (st : Stores) (fid : String) : Except InfoError InfoResult :=
  match lookupA st.failures fid with
  | none => .error (.notFound ("Failure with ID " ++ fid ++ " not found"))
  | some failure =>
    let sessionId := "session_" ++ fid
    let session := (lookupA st.sessions sessionId).getD
      { id := sessionId, failure_id := fid, created_at := 0, debug_steps := [] }
    match principleAt ((failure.current_debug_step : Int) - 1) with
    | none => .error .principleIndexCrash
    | some currentPrinciple =>
      let completedSteps := stableSort (fun a b => b.step ≤ a.step)
        (session.debug_steps.filter (fun s => s.status = "completed"))
      .ok
        { failure :=
            { id := failure.id, timestamp := failure.timestamp, status := failure.status,
              test_name := failure.test_name, file_path := failure.file_path,
              line_number := failure.line_number, error_message := failure.error_message,
              traceback := failure.traceback, locals := failure.locals },
          debugging :=
            { current_principle := currentPrinciple,
              completed_principles :=
                (session.debug_steps.filter (fun s => s.status = "completed")).map
                  (fun s => { number := s.step, name := s.name,
                              analysis := s.llm_analysis, completed_at := s.completed_at }),
              pending_principles :=
                (session.debug_steps.filter (fun s => s.status = "pending")).map
                  (fun s => (s.step, s.name)),
              progress_completed := completedSteps.length,
              progress_total := 9,
              progress_percentage := progressPercentage completedSteps.length } }

/-! ### Association-list lemmas -/

theorem lookupA_setA_self {α : Type} (m : List (String × α)) (k : String) (v : α) :
    lookupA (setA m k v) k = some v := by
  induction m with
  | nil => simp [setA, lookupA]
  | cons p rest ih =>
    by_cases h : p.1 = k
    · simp [setA, lookupA, h]
    · simp [setA, lookupA, h, ih]

theorem lookupA_setA_ne {α : Type} (m : List (String × α)) (k k' : String) (v : α)
    (h : k' ≠ k) : lookupA (setA m k v) k' = lookupA m k' := by
  have hkk : ¬ k = k' := fun e => h e.symm
  induction m with
  | nil => simp [setA, lookupA, hkk]
  | cons p rest ih =>
    by_cases hp : p.1 = k
    · subst hp
      simp [setA, lookupA, hkk]
    · simp only [setA, if_neg hp, lookupA]
      by_cases hp' : p.1 = k'
      · simp [hp']
      · simp [hp', ih]

theorem mem_setA {α : Type} {m : List (String × α)} {k : String} {v : α}
    {p : String × α} (h : p ∈ setA m k v) : p = (k, v) ∨ p ∈ m := by
  induction m with
  | nil => simpa [setA] using h
  | cons q rest ih =>
    by_cases hq : q.1 = k
    · rw [setA, if_pos hq] at h
      rcases List.mem_cons.mp h with h | h
      · exact Or.inl h
      · exact Or.inr (List.mem_cons_of_mem _ h)
    · rw [setA, if_neg hq] at h
      rcases List.mem_cons.mp h with h | h
      · exact Or.inr (h ▸ List.mem_cons_self _ _)
      · rcases ih h with h | h
        · exact Or.inl h
        · exact Or.inr (List.mem_cons_of_mem _ h)

theorem lookupA_mem {α : Type} {m : List (String × α)} {k : String} {v : α}
    (h : lookupA m k = some v) : (k, v) ∈ m := by
  induction m with
  | nil => simp [lookupA] at h
  | cons p rest ih =>
    by_cases hp : p.1 = k
    · rw [lookupA, if_pos hp] at h
      obtain rfl : p.2 = v := Option.some.inj h
      obtain ⟨a, b⟩ := p
      obtain rfl : a = k := hp
      exact List.mem_cons_self _ _
    · rw [lookupA, if_neg hp] at h
      exact List.mem_cons_of_mem _ (ih h)

theorem mem_updateA {α : Type} (f : α → α) {m : List (String × α)} {k : String}
    {p : String × α} (h : p ∈ updateA f m k) :
    p ∈ m ∨ ∃ q ∈ m, q.1 = k ∧ p = (q.1, f q.2) := by
  induction m with
  | nil => simp [updateA] at h
  | cons q rest ih =>
    by_cases hq : q.1 = k
    · rw [updateA, if_pos hq] at h
      rcases List.mem_cons.mp h with h | h
      · exact Or.inr ⟨q, List.mem_cons_self _ _, hq, h⟩
      · exact Or.inl (List.mem_cons_of_mem _ h)
    · rw [updateA, if_neg hq] at h
      rcases List.mem_cons.mp h with h | h
      · exact Or.inl (h ▸ List.mem_cons_self _ _)
      · rcases ih h with h | ⟨r, hr, hrk, hpr⟩
        · exact Or.inl (List.mem_cons_of_mem _ h)
        · exact Or.inr ⟨r, List.mem_cons_of_mem _ hr, hrk, hpr⟩

/-! ### Inversion of a successful `debug_with_principle` call -/

theorem applyOk_failures (st : Stores) (now : Nat) (fid : String) (f : FailureRecord)
    (k : Nat) (a : String) :
    (applyOk st now fid f k a).1.failures =
      setA st.failures fid { f with current_debug_step := min (k + 1) 9 } := rfl

theorem applyOk_sessions (st : Stores) (now : Nat) (fid : String) (f : FailureRecord)
    (k : Nat) (a : String) :
    (applyOk st now fid f k a).1.sessions =
      setA st.sessions ("session_" ++ fid)
        { (lookupA st.sessions ("session_" ++ fid)).getD (freshSession now fid) with
          debug_steps :=
            maybeAddNext now k
              (completeStep
                (ensureStep now k
                  ((lookupA st.sessions ("session_" ++ fid)).getD
                    (freshSession now fid)).debug_steps) k now a) } := rfl

theorem applyOk_principle_number (st : Stores) (now : Nat) (fid : String)
    (f : FailureRecord) (k : Nat) (a : String) :
    (applyOk st now fid f k a).2.principle_number = k := rfl

/-- Inversion: a successful `debug_with_principle` call found the failure,
validated the (possibly defaulted) principle number into `[1,9]`, and its
outputs are those of `applyOk`. -/
theorem debugWithPrinciple_ok_elim {st : Stores} {now : Nat} {fid : String}
    {pn : Option Nat} {a : String} {st' : Stores} {res : ApplyResult}
    (h : debugWithPrinciple st now fid pn a = .ok (st', res)) :
    ∃ f, lookupA st.failures fid = some f ∧
      1 ≤ jsOrNat pn f.current_debug_step ∧ jsOrNat pn f.current_debug_step ≤ 9 ∧
      (st', res) = applyOk st now fid f (jsOrNat pn f.current_debug_step) a := by
  cases hb : lookupA st.failures fid with
  | none =>
    simp only [debugWithPrinciple, hb] at h
    exact absurd h (by simp)
  | some f =>
    simp only [debugWithPrinciple, hb] at h
    by_cases hrange :
        jsOrNat pn f.current_debug_step < 1 ∨ 9 < jsOrNat pn f.current_debug_step
    · rw [if_pos hrange] at h; exact absurd h (by simp)
    · rw [if_neg hrange] at h
      push_neg at hrange
      exact ⟨f, rfl, hrange.1, hrange.2, (Except.ok.inj h).symm⟩

/-- Claim C1: a successful `apply_principle` on an existing failure with a
principle number `k` (explicit, or defaulted by JS `||` to the failure's
`current_debug_step`) stores `current_debug_step = min(k + 1, 9)` for that
failure, regardless of the previous value — also for a backward jump. -/
theorem apply_principle_sets_min_succ (st : Stores) (now : Nat) (fid : String)
    (pn : Option Nat) (a : String) (st' : Stores) (res : ApplyResult) (f : FailureRecord)
    (hok : debugWithPrinciple st now fid pn a = .ok (st', res))
    (hf : lookupA st.failures fid = some f) :
    lookupA st'.failures fid =
      some { f with current_debug_step := min (jsOrNat pn f.current_debug_step + 1) 9 } := by
  obtain ⟨f', hf', -, -, hst⟩ := debugWithPrinciple_ok_elim hok
  have hff : f' = f := Option.some.inj (hf'.symm.trans hf)
  rw [hff] at hst
  have hst' : st' = (applyOk st now fid f (jsOrNat pn f.current_debug_step) a).1 :=
    congrArg Prod.fst hst
  rw [hst', applyOk_failures]
  exact lookupA_setA_self _ _ _

/-- Sample registration input used by the concrete witnesses below. -/
def sampleInput : FailureInput :=
  { test_name := "test_sample", file_path := "tests/test_sample.py", line_number := 7,
    error_message := "AssertionError: expected 42, got 7", traceback := "tb", locals := [] }

/-- Stores after registering `sampleInput` at `Date.now() = 1000`. -/
def storesA : Stores := (registerFailure initialStores 1000 sampleInput).1

/-- Stores after additionally applying principle 7 at time 2000. -/
def storesB : Stores := applyPrincipleStores storesA 2000 "1000" (some 7) "looked"

/-- Witness for C1: at `storesB` the failure's `current_debug_step` is 8;
re-applying the earlier principle 3 succeeds and moves it backward to
`min(3 + 1, 9) = 4`. -/
theorem apply_principle_sets_min_succ_witness :
    (lookupA (applyPrincipleStores storesB 3000 "1000" (some 3) "dug").failures
        "1000").map FailureRecord.current_debug_step = some 4 := by
  obtain ⟨f, hf⟩ : ∃ f, lookupA storesB.failures "1000" = some f := ⟨_, rfl⟩
  cases hrun : debugWithPrinciple storesB 3000 "1000" (some 3) "dug" with
  | error e =>
    have hok : (debugWithPrinciple storesB 3000 "1000" (some 3) "dug").isOk = true := by decide
    rw [hrun] at hok
    simp [Except.isOk, Except.toBool] at hok
  | ok r =>
    have h := apply_principle_sets_min_succ storesB 3000 "1000" (some 3) "dug"
      r.1 r.2 f hrun hf
    have hstores : applyPrincipleStores storesB 3000 "1000" (some 3) "dug" = r.1 := by
      unfold applyPrincipleStores
      rw [hrun]
    rw [hstores, h]
    simp [jsOrNat]

/-! ### Claim C2: the `current_debug_step` range invariant -/

theorem registerFailure_failures (st : Stores) (now : Nat) (inp : FailureInput) :
    (registerFailure st now inp).1.failures =
      setA st.failures (toString now)
        { id := toString now, timestamp := now, status := "new", current_debug_step := 1,
          test_name := inp.test_name, file_path := inp.file_path,
          line_number := inp.line_number, error_message := inp.error_message,
          traceback := inp.traceback, locals := inp.locals } := rfl

theorem registerFailure_sessions (st : Stores) (now : Nat) (inp : FailureInput) :
    (registerFailure st now inp).1.sessions =
      setA st.sessions ("session_" ++ toString now)
        { id := "session_" ++ toString now, failure_id := toString now, created_at := now,
          debug_steps :=
            [ { step := 1, name := "Understand the System", status := "pending",
                started_at := now, completed_at := none, llm_analysis := none } ] } := rfl

/-- Range invariant: every failure record in a reachable store has
`current_debug_step ∈ [1,9]`. -/
theorem failures_bounds_of_reachable {st : Stores} (h : Reachable st) :
    ∀ p ∈ st.failures, 1 ≤ p.2.current_debug_step ∧ p.2.current_debug_step ≤ 9 := by
  induction h with
  | init => intro p hp; simp [initialStores] at hp
  | register st now inp _ ih =>
    intro p hp
    rw [registerFailure_failures] at hp
    rcases mem_setA hp with rfl | hp
    · exact ⟨le_refl 1, by norm_num⟩
    · exact ih p hp
  | applyStep st now fid pn a _ ih =>
    intro p hp
    unfold applyPrincipleStores at hp
    cases hr : debugWithPrinciple st now fid pn a with
    | error e => rw [hr] at hp; exact ih p hp
    | ok r =>
      rw [hr] at hp
      obtain ⟨f, hf, hk1, hk9, hst⟩ := debugWithPrinciple_ok_elim
        (show debugWithPrinciple st now fid pn a = Except.ok (r.1, r.2) by rw [hr])
      have : r.1.failures =
          setA st.failures fid
            { f with current_debug_step := min (jsOrNat pn f.current_debug_step + 1) 9 } := by
        rw [show r.1 = (applyOk st now fid f (jsOrNat pn f.current_debug_step) a).1 from
          congrArg Prod.fst hst, applyOk_failures]
      rw [this] at hp
      rcases mem_setA hp with rfl | hp
      · refine ⟨?_, ?_⟩
        · show 1 ≤ min (jsOrNat pn f.current_debug_step + 1) 9
          omega
        · show min (jsOrNat pn f.current_debug_step + 1) 9 ≤ 9
          omega
      · exact ih p hp

/-- Claim C2: in every reachable store `1 ≤ current_debug_step ≤ 9` holds
for all failure records; registration initializes the step to 1; and a
call whose (defaulted) principle number falls outside `[1,9]` is rejected
with the invalid-principle error without touching the stores. -/
theorem current_debug_step_invariant :
    (∀ st, Reachable st →
      ∀ p ∈ st.failures, 1 ≤ p.2.current_debug_step ∧ p.2.current_debug_step ≤ 9) ∧
    (∀ st now inp, ∃ f,
      lookupA ((registerFailure st now inp).1).failures (toString now) = some f ∧
      f.current_debug_step = 1) ∧
    (∀ st now fid pn a f, lookupA st.failures fid = some f →
      (jsOrNat pn f.current_debug_step < 1 ∨ 9 < jsOrNat pn f.current_debug_step) →
      debugWithPrinciple st now fid pn a =
        .error (.invalidPrinciple (jsOrNat pn f.current_debug_step)) ∧
      applyPrincipleStores st now fid pn a = st) := by
  refine ⟨fun st h => failures_bounds_of_reachable h, ?_, ?_⟩
  · intro st now inp
    exact ⟨_, by rw [registerFailure_failures]; exact lookupA_setA_self _ _ _, rfl⟩
  · intro st now fid pn a f hf hrange
    have herr : debugWithPrinciple st now fid pn a =
        .error (.invalidPrinciple (jsOrNat pn f.current_debug_step)) := by
      simp only [debugWithPrinciple, hf]
      rw [if_pos hrange]
    exact ⟨herr, by unfold applyPrincipleStores; rw [herr]⟩

/-- The failure record created by the witness registration. -/
def sampleRecord : FailureRecord :=
  { id := "1000", timestamp := 1000, status := "new", current_debug_step := 1,
    test_name := sampleInput.test_name, file_path := sampleInput.file_path,
    line_number := sampleInput.line_number, error_message := sampleInput.error_message,
    traceback := sampleInput.traceback, locals := sampleInput.locals }

/-- Witness for C2, at the concrete reachable store `storesA`: the bound
holds for its registered record, registration set the step to 1, and an
explicit out-of-range principle number 77 is rejected. -/
theorem current_debug_step_invariant_witness :
    (1 ≤ sampleRecord.current_debug_step ∧ sampleRecord.current_debug_step ≤ 9) ∧
    (∃ f, lookupA ((registerFailure initialStores 1000 sampleInput).1).failures
        (toString (1000 : Nat)) = some f ∧ f.current_debug_step = 1) ∧
    debugWithPrinciple storesA 2000 "1000" (some 77) "x" =
      .error (.invalidPrinciple (jsOrNat (some 77) sampleRecord.current_debug_step)) :=
  ⟨current_debug_step_invariant.1 storesA
      (Reachable.register initialStores 1000 sampleInput Reachable.init)
      ("1000", sampleRecord) (by decide),
   current_debug_step_invariant.2.1 initialStores 1000 sampleInput,
   (current_debug_step_invariant.2.2 storesA 2000 "1000" (some 77) "x" sampleRecord
      (by decide) (by decide)).1⟩

/-! ### Claim C3: debug step wellformedness and single-entry-per-number -/

/-- A step is `completed` exactly when both `completed_at` and
`llm_analysis` are non-null. -/
def StepWF (s : DebugStep) : Prop :=
  s.status = "completed" ↔ (s.completed_at ≠ none ∧ s.llm_analysis ≠ none)

/-- Session wellformedness: every step satisfies `StepWF` and step
numbers are pairwise distinct (at most one `DebugStep` per number). -/
def SessionWF (sess : DebugSession) : Prop :=
  (∀ s ∈ sess.debug_steps, StepWF s) ∧ (sess.debug_steps.map DebugStep.step).Nodup

theorem stepWF_newPendingStep (now k : Nat) : StepWF (newPendingStep now k) := by
  simp [StepWF, newPendingStep]

theorem completeStep_map_step (l : List DebugStep) (k now : Nat) (a : String) :
    (completeStep l k now a).map DebugStep.step = l.map DebugStep.step := by
  induction l with
  | nil => rfl
  | cons s rest ih =>
    by_cases h : s.step = k
    · simp [completeStep, h]
    · simp [completeStep, h, ih]

theorem completeStep_wf {l : List DebugStep} (hl : ∀ s ∈ l, StepWF s) (k now : Nat)
    (a : String) : ∀ s ∈ completeStep l k now a, StepWF s := by
  induction l with
  | nil => intro s hs; simp [completeStep] at hs
  | cons s0 rest ih =>
    intro s hs
    by_cases h : s0.step = k
    · rw [completeStep, if_pos h] at hs
      rcases List.mem_cons.mp hs with rfl | hs
      · simp [StepWF]
      · exact hl s (List.mem_cons_of_mem _ hs)
    · rw [completeStep, if_neg h] at hs
      rcases List.mem_cons.mp hs with rfl | hs
      · exact hl s (List.mem_cons_self _ _)
      · exact ih (fun x hx => hl x (List.mem_cons_of_mem _ hx)) s hs

theorem ensureStep_mem_or_pending {l : List DebugStep} {now k : Nat} {s : DebugStep}
    (hs : s ∈ ensureStep now k l) : s ∈ l ∨ s = newPendingStep now k := by
  unfold ensureStep at hs
  split at hs
  · exact Or.inl hs
  · rcases List.mem_append.mp hs with h | h
    · exact Or.inl h
    · exact Or.inr (List.mem_singleton.mp h)

theorem ensureStep_nodup {l : List DebugStep} (hl : (l.map DebugStep.step).Nodup)
    (now k : Nat) : ((ensureStep now k l).map DebugStep.step).Nodup := by
  unfold ensureStep
  split
  · exact hl
  · next hfind =>
    have hnone : l.find? (fun s => s.step = k) = none := by
      cases hx : l.find? (fun s => s.step = k) with
      | none => rfl
      | some v => rw [hx] at hfind; simp at hfind
    have hk : ∀ x ∈ l, x.step ≠ k := by
      intro x hx
      have := List.find?_eq_none.mp hnone x hx
      simpa using this
    rw [List.map_append]
    refine List.Nodup.append hl (by simp) ?_
    intro x hx hy
    simp only [List.map_cons, List.map_nil, newPendingStep, List.mem_singleton] at hy
    rcases List.mem_map.mp hx with ⟨d, hd, rfl⟩
    exact hk d hd hy

theorem maybeAddNext_nodup {l : List DebugStep} (hl : (l.map DebugStep.step).Nodup)
    (now k : Nat) : ((maybeAddNext now k l).map DebugStep.step).Nodup := by
  unfold maybeAddNext
  split
  · next hcond =>
    have hnotin : ∀ x ∈ l, x.step ≠ min (k + 1) 9 := by
      intro x hx
      have hany := hcond.2
      simp only [List.any_eq_true, not_exists, not_and] at hany
      intro he
      exact absurd (by simpa using he) (hany x hx)
    rw [List.map_append]
    refine List.Nodup.append hl (by simp) ?_
    intro x hx hy
    simp only [List.map_cons, List.map_nil, newPendingStep, List.mem_singleton] at hy
    rcases List.mem_map.mp hx with ⟨d, hd, rfl⟩
    exact hnotin d hd hy
  · exact hl

theorem maybeAddNext_mem_or_pending {l : List DebugStep} {now k : Nat} {s : DebugStep}
    (hs : s ∈ maybeAddNext now k l) :
    s ∈ l ∨ (k < 9 ∧ s = newPendingStep now (min (k + 1) 9)) := by
  unfold maybeAddNext at hs
  split at hs
  · next hcond =>
    rcases List.mem_append.mp hs with h | h
    · exact Or.inl h
    · exact Or.inr ⟨hcond.1, List.mem_singleton.mp h⟩
  · exact Or.inl hs

/-- The session wellformedness invariant over reachable stores. -/
theorem sessions_wf_of_reachable {st : Stores} (h : Reachable st) :
    ∀ p ∈ st.sessions, SessionWF p.2 := by
  induction h with
  | init => intro p hp; simp [initialStores] at hp
  | register st now inp _ ih =>
    intro p hp
    rw [registerFailure_sessions] at hp
    rcases mem_setA hp with rfl | hp
    · constructor
      · intro s hs
        rcases List.mem_singleton.mp hs with rfl
        simp [StepWF]
      · simp
    · exact ih p hp
  | applyStep st now fid pn a _ ih =>
    intro p hp
    unfold applyPrincipleStores at hp
    cases hr : debugWithPrinciple st now fid pn a with
    | error e => rw [hr] at hp; exact ih p hp
    | ok r =>
      rw [hr] at hp
      obtain ⟨f, hf, hk1, hk9, hst⟩ := debugWithPrinciple_ok_elim
        (show debugWithPrinciple st now fid pn a = Except.ok (r.1, r.2) by rw [hr])
      have hrw : r.1.sessions =
          setA st.sessions ("session_" ++ fid)
            { (lookupA st.sessions ("session_" ++ fid)).getD
                (freshSession now fid) with
              debug_steps :=
                maybeAddNext now (jsOrNat pn f.current_debug_step)
                  (completeStep
                    (ensureStep now (jsOrNat pn f.current_debug_step)
                      ((lookupA st.sessions ("session_" ++ fid)).getD
                        (freshSession now fid)).debug_steps)
                    (jsOrNat pn f.current_debug_step) now a) } := by
        rw [show r.1 = (applyOk st now fid f (jsOrNat pn f.current_debug_step) a).1 from
          congrArg Prod.fst hst, applyOk_sessions]
      rw [hrw] at hp
      have hbase : SessionWF ((lookupA st.sessions ("session_" ++ fid)).getD
          (freshSession now fid)) := by
        cases hsess : lookupA st.sessions ("session_" ++ fid) with
        | none => exact ⟨by simp [freshSession], by simp [freshSession]⟩
        | some sess =>
          have hwf := ih _ (lookupA_mem hsess)
          simpa using hwf
      rcases mem_setA hp with rfl | hp
      · constructor
        · intro s hs
          rcases maybeAddNext_mem_or_pending hs with hs | ⟨-, rfl⟩
          · exact completeStep_wf
              (fun x hx => by
                rcases ensureStep_mem_or_pending hx with hx | rfl
                · exact hbase.1 x hx
                · exact stepWF_newPendingStep _ _) _ _ _ s hs
          · exact stepWF_newPendingStep _ _
        · exact maybeAddNext_nodup
            (by rw [completeStep_map_step]; exact ensureStep_nodup hbase.2 _ _) _ _
      · exact ih p hp

theorem filter_step_length (l : List DebugStep) (k : Nat) :
    (l.filter (fun s => s.step = k)).length = (l.map DebugStep.step).count k := by
  induction l with
  | nil => rfl
  | cons s rest ih =>
    by_cases h : s.step = k
    · simp [List.filter_cons, h, ih, List.count_cons]
    · have h' : ¬ k = s.step := fun e => h e.symm
      simp [List.filter_cons, h, ih, List.count_cons, h']

theorem ensureStep_count_one {l : List DebugStep} (hl : (l.map DebugStep.step).Nodup)
    (now k : Nat) : ((ensureStep now k l).map DebugStep.step).count k = 1 := by
  unfold ensureStep
  split
  · next hfind =>
    rw [Option.isSome_iff_exists] at hfind
    obtain ⟨s, hs⟩ := hfind
    have hmem := List.mem_of_find?_eq_some hs
    have hpk : s.step = k := by simpa using List.find?_some hs
    have hk : k ∈ l.map DebugStep.step := List.mem_map.mpr ⟨s, hmem, hpk⟩
    have h1 : 1 ≤ (l.map DebugStep.step).count k := List.one_le_count_iff.mpr hk
    have h2 : (l.map DebugStep.step).count k ≤ 1 := List.nodup_iff_count_le_one.mp hl k
    omega
  · next hfind =>
    have hnone : l.find? (fun s => s.step = k) = none := by
      cases hx : l.find? (fun s => s.step = k) with
      | none => rfl
      | some v => rw [hx] at hfind; simp at hfind
    have hk : ∀ x ∈ l, x.step ≠ k := by
      intro x hx
      have := List.find?_eq_none.mp hnone x hx
      simpa using this
    have h0 : (l.map DebugStep.step).count k = 0 := by
      rw [List.count_eq_zero]
      intro hmem
      rcases List.mem_map.mp hmem with ⟨d, hd, he⟩
      exact hk d hd he
    simp [List.map_append, List.count_append, h0, newPendingStep]

theorem completeStep_completed_fields {l : List DebugStep}
    (hl : (l.map DebugStep.step).Nodup) (k now : Nat) (a : String) :
    ∀ s ∈ completeStep l k now a, s.step = k →
      s.status = "completed" ∧ s.completed_at = some now ∧ s.llm_analysis = some a := by
  induction l with
  | nil => intro s hs; simp [completeStep] at hs
  | cons s0 rest ih =>
    intro s hs hk
    have hcons : s0.step ∉ rest.map DebugStep.step ∧ (rest.map DebugStep.step).Nodup := by
      rw [List.map_cons, List.nodup_cons] at hl
      exact hl
    by_cases h : s0.step = k
    · rw [completeStep, if_pos h] at hs
      rcases List.mem_cons.mp hs with rfl | hs
      · exact ⟨rfl, rfl, rfl⟩
      · exfalso
        have hm : k ∈ rest.map DebugStep.step := List.mem_map.mpr ⟨s, hs, hk⟩
        exact hcons.1 (h ▸ hm)
    · rw [completeStep, if_neg h] at hs
      rcases List.mem_cons.mp hs with rfl | hs
      · exact absurd hk h
      · exact ih hcons.2 s hs hk

/-- Claim C3: in every reachable store, a debug step is `completed` iff
both `completed_at` and `llm_analysis` are non-null, and each session
holds at most one `DebugStep` per step number; moreover a successful
`apply_principle` leaves exactly one entry for the applied number and
that entry carries the new status, timestamp and analysis (overwrite,
not duplication). -/
theorem debug_steps_wellformed :
    (∀ st, Reachable st → ∀ p ∈ st.sessions,
      (∀ s ∈ p.2.debug_steps, s.status = "completed" ↔
        (s.completed_at ≠ none ∧ s.llm_analysis ≠ none)) ∧
      (p.2.debug_steps.map DebugStep.step).Nodup) ∧
    (∀ st now fid pn a st' res, Reachable st →
      debugWithPrinciple st now fid pn a = .ok (st', res) →
      ∃ sess, lookupA st'.sessions ("session_" ++ fid) = some sess ∧
        (sess.debug_steps.filter (fun s => s.step = res.principle_number)).length = 1 ∧
        ∀ s ∈ sess.debug_steps, s.step = res.principle_number →
          s.status = "completed" ∧ s.completed_at = some now ∧
            s.llm_analysis = some a) := by
  constructor
  · exact fun st h => sessions_wf_of_reachable h
  · intro st now fid pn a st' res hreach hok
    obtain ⟨f, hf, hk1, hk9, hst⟩ := debugWithPrinciple_ok_elim hok
    have hfst : st' = (applyOk st now fid f (jsOrNat pn f.current_debug_step) a).1 :=
      congrArg Prod.fst hst
    have hsnd : res = (applyOk st now fid f (jsOrNat pn f.current_debug_step) a).2 :=
      congrArg Prod.snd hst
    set k := jsOrNat pn f.current_debug_step with hkdef
    have hres : res.principle_number = k := by
      rw [hsnd, applyOk_principle_number]
    set base := (lookupA st.sessions ("session_" ++ fid)).getD (freshSession now fid)
      with hbasedef
    have hbasewf : SessionWF base := by
      cases hsx : lookupA st.sessions ("session_" ++ fid) with
      | none => exact ⟨by simp [hbasedef, hsx, freshSession], by simp [hbasedef, hsx, freshSession]⟩
      | some sess =>
        have hwf := sessions_wf_of_reachable hreach _ (lookupA_mem hsx)
        simpa [hbasedef, hsx] using hwf
    refine ⟨{ base with debug_steps := maybeAddNext now k (completeStep (ensureStep now k base.debug_steps) k now a) }, ?_, ?_, ?_⟩
    · rw [hfst, applyOk_sessions]
      exact lookupA_setA_self _ _ _
    · rw [hres]
      show ((maybeAddNext now k (completeStep (ensureStep now k base.debug_steps)
        k now a)).filter (fun s => s.step = k)).length = 1
      rw [filter_step_length]
      have hcom : ((completeStep (ensureStep now k base.debug_steps) k now a).map
          DebugStep.step).count k = 1 := by
        rw [completeStep_map_step]
        exact ensureStep_count_one hbasewf.2 now k
      unfold maybeAddNext
      split
      · next hcond =>
        rw [List.map_append, List.count_append, hcom]
        have hne : ¬ min (k + 1) 9 = k := by
          rw [Nat.min_eq_left (by omega : k + 1 ≤ 9)]
          omega
        have hz : List.count k [min (k + 1) 9] = 0 := by
          rw [List.count_eq_zero]
          simp only [List.mem_singleton]
          exact fun e => hne e.symm
        simp [newPendingStep, hz]
      · exact hcom
    · intro s hs hsk
      rw [hres] at hsk
      have hs2 : s ∈ maybeAddNext now k
          (completeStep (ensureStep now k base.debug_steps) k now a) := hs
      rcases maybeAddNext_mem_or_pending hs2 with hs' | ⟨hklt, rfl⟩
      · exact completeStep_completed_fields
          (ensureStep_nodup hbasewf.2 now k) k now a s hs' hsk
      · exfalso
        have hkmin : ¬ min (k + 1) 9 = k := by
          rw [Nat.min_eq_left (by omega : k + 1 ≤ 9)]
          omega
        exact hkmin (by simpa [newPendingStep] using hsk)

/-- The session contents after the witness registration at time 1000. -/
def sampleSession : DebugSession :=
  { id := "session_1000", failure_id := "1000", created_at := 1000,
    debug_steps :=
      [ { step := 1, name := "Understand the System", status := "pending",
          started_at := 1000, completed_at := none, llm_analysis := none } ] }

/-- Witness for C3 at concrete stores: the invariant holds for the fresh
session of `storesA`, and applying principle 7 there yields a session
with exactly one completed entry for step 7 carrying the analysis. -/
theorem debug_steps_wellformed_witness :
    ((∀ s ∈ sampleSession.debug_steps, s.status = "completed" ↔
        (s.completed_at ≠ none ∧ s.llm_analysis ≠ none)) ∧
      (sampleSession.debug_steps.map DebugStep.step).Nodup) ∧
    (∃ sess, lookupA storesB.sessions "session_1000" = some sess ∧
      (sess.debug_steps.filter (fun s => s.step = 7)).length = 1 ∧
      ∀ s ∈ sess.debug_steps, s.step = 7 →
        s.status = "completed" ∧ s.completed_at = some 2000 ∧
          s.llm_analysis = some "looked") := by
  constructor
  · exact debug_steps_wellformed.1 storesA
      (Reachable.register initialStores 1000 sampleInput Reachable.init)
      ("session_1000", sampleSession) (by decide)
  · cases hrun : debugWithPrinciple storesA 2000 "1000" (some 7) "looked" with
    | error e =>
      have hok : (debugWithPrinciple storesA 2000 "1000" (some 7) "looked").isOk = true := by
        decide
      rw [hrun] at hok
      simp [Except.isOk, Except.toBool] at hok
    | ok r =>
      have h := debug_steps_wellformed.2 storesA 2000 "1000" (some 7) "looked" r.1 r.2
        (Reachable.register initialStores 1000 sampleInput Reachable.init) (by rw [hrun])
      obtain ⟨f, hf, -, -, hst⟩ := debugWithPrinciple_ok_elim
        (show debugWithPrinciple storesA 2000 "1000" (some 7) "looked" =
          Except.ok (r.1, r.2) by rw [hrun])
      have hpn : r.2.principle_number = 7 := by
        have hsnd : r.2 = (applyOk storesA 2000 "1000" f
            (jsOrNat (some 7) f.current_debug_step) "looked").2 := congrArg Prod.snd hst
        rw [hsnd, applyOk_principle_number]
        simp [jsOrNat]
      have hsb : storesB = r.1 := by
        show applyPrincipleStores storesA 2000 "1000" (some 7) "looked" = r.1
        unfold applyPrincipleStores
        rw [hrun]
      rw [hsb]
      rw [hpn] at h
      exact h

/-! ### Claim C7: monotonicity of `current_debug_step` -/

/-- Counterexample to C7 as stated: after registering at time 1000 and
applying principle 7 (pointer moves to 8), re-applying the earlier
principle 3 drops `current_debug_step` from 8 back to 4 — the sequence
register, apply 7, apply 3 decreases it between two observations. -/
theorem current_step_monotonic_counterexample :
    (lookupA storesB.failures "1000").map FailureRecord.current_debug_step = some 8 ∧
    (lookupA (applyPrincipleStores storesB 3000 "1000" (some 3) "dug").failures
        "1000").map FailureRecord.current_debug_step = some 4 := by
  constructor
  · decide
  · decide

/-- Claim C7 (amended): a successful `apply_principle` call that omits
`principle_number` (so it defaults to the failure's own
`current_debug_step`) never decreases `current_debug_step`; only an
explicit earlier principle number can move it backward. -/
theorem current_step_monotonic_default (st : Stores) (now : Nat) (fid : String)
    (a : String) (st' : Stores) (res : ApplyResult) (f : FailureRecord)
    (hok : debugWithPrinciple st now fid none a = .ok (st', res))
    (hf : lookupA st.failures fid = some f) :
    ∃ f', lookupA st'.failures fid = some f' ∧
      f.current_debug_step ≤ f'.current_debug_step := by
  obtain ⟨f0, hf0, hk1, hk9, hst⟩ := debugWithPrinciple_ok_elim hok
  have hff : f0 = f := Option.some.inj (hf0.symm.trans hf)
  rw [hff] at hst hk1 hk9
  have hfst : st' = (applyOk st now fid f (jsOrNat none f.current_debug_step) a).1 :=
    congrArg Prod.fst hst
  refine ⟨{ f with current_debug_step := min (jsOrNat none f.current_debug_step + 1) 9 }, ?_, ?_⟩
  · rw [hfst, applyOk_failures]
    exact lookupA_setA_self _ _ _
  · show f.current_debug_step ≤ min (jsOrNat none f.current_debug_step + 1) 9
    have hd : jsOrNat none f.current_debug_step = f.current_debug_step := rfl
    rw [hd] at hk9 ⊢
    omega

/-- Witness for the amended C7: applying the defaulted principle at the
freshly registered failure (step 1) yields step 2 ≥ 1. -/
theorem current_step_monotonic_default_witness :
    ∃ f', lookupA (applyPrincipleStores storesA 1500 "1000" none "first look").failures
        "1000" = some f' ∧
      sampleRecord.current_debug_step ≤ f'.current_debug_step := by
  cases hrun : debugWithPrinciple storesA 1500 "1000" none "first look" with
  | error e =>
    have hok : (debugWithPrinciple storesA 1500 "1000" none "first look").isOk = true := by
      decide
    rw [hrun] at hok
    simp [Except.isOk, Except.toBool] at hok
  | ok r =>
    have h := current_step_monotonic_default storesA 1500 "1000" "first look" r.1 r.2
      sampleRecord hrun (by decide)
    have hsp : applyPrincipleStores storesA 1500 "1000" none "first look" = r.1 := by
      unfold applyPrincipleStores
      rw [hrun]
    rw [hsp]
    exact h

/-! ### Grouping engine lemmas (claims C4 and C8) -/

theorem updateGroup_spec (f : FailureRecord) (g : FailureGroup) :
    (updateGroup f g).id = g.id ∧ (updateGroup f g).name = g.name ∧
    (updateGroup f g).pattern = g.pattern ∧
    (updateGroup f g).common_error_type = g.common_error_type ∧
    (updateGroup f g).root_cause_hypothesis = g.root_cause_hypothesis ∧
    (updateGroup f g).count = g.count + 1 ∧
    (updateGroup f g).failures = g.failures ++ [f.id] := by
  by_cases h1 : f.timestamp < g.first_seen <;>
    by_cases h2 : g.last_seen < f.timestamp <;>
      simp [updateGroup, h1, h2]

theorem lookupA_updateA_self {α : Type} (f : α → α) {m : List (String × α)} {k : String}
    {v : α} (h : lookupA m k = some v) :
    lookupA (updateA f m k) k = some (f v) := by
  induction m with
  | nil => simp [lookupA] at h
  | cons p rest ih =>
    by_cases hp : p.1 = k
    · rw [lookupA, if_pos hp] at h
      rw [updateA, if_pos hp, lookupA, if_pos hp, Option.some.inj h]
    · rw [lookupA, if_neg hp] at h
      rw [updateA, if_neg hp, lookupA, if_neg hp]
      exact ih h

theorem lookupA_updateA_ne {α : Type} (f : α → α) (m : List (String × α))
    (k k' : String) (h : k' ≠ k) : lookupA (updateA f m k) k' = lookupA m k' := by
  induction m with
  | nil => rfl
  | cons p rest ih =>
    by_cases hp : p.1 = k
    · subst hp
      rw [updateA, if_pos rfl, lookupA, lookupA,
        if_neg (fun e => h e.symm), if_neg (fun e => h e.symm)]
    · rw [updateA, if_neg hp, lookupA, lookupA]
      by_cases hp' : p.1 = k'
      · rw [if_pos hp', if_pos hp']
      · rw [if_neg hp', if_neg hp']
        exact ih

theorem lookupA_append_left {α : Type} {m m2 : List (String × α)} {k : String} {v : α}
    (h : lookupA m k = some v) : lookupA (m ++ m2) k = some v := by
  induction m with
  | nil => simp [lookupA] at h
  | cons p rest ih =>
    by_cases hp : p.1 = k
    · rw [lookupA, if_pos hp] at h
      rw [List.cons_append, lookupA, if_pos hp]
      exact h
    · rw [lookupA, if_neg hp] at h
      rw [List.cons_append, lookupA, if_neg hp]
      exact ih h

theorem lookupA_append_right {α : Type} {m : List (String × α)} {k : String}
    (h : lookupA m k = none) (m2 : List (String × α)) :
    lookupA (m ++ m2) k = lookupA m2 k := by
  induction m with
  | nil => rfl
  | cons p rest ih =>
    by_cases hp : p.1 = k
    · rw [lookupA, if_pos hp] at h
      exact absurd h (by simp)
    · rw [lookupA, if_neg hp] at h
      rw [List.cons_append, lookupA, if_neg hp]
      exact ih h

/-- The fields of a group that the accumulation loop never rewrites,
together with growth of the member list. -/
def GroupPreserved (g g' : FailureGroup) : Prop :=
  g'.id = g.id ∧ g'.name = g.name ∧ g'.pattern = g.pattern ∧
  g'.common_error_type = g.common_error_type ∧
  g'.root_cause_hypothesis = g.root_cause_hypothesis ∧
  ∀ x ∈ g.failures, x ∈ g'.failures

theorem groupPreserved_refl (g : FailureGroup) : GroupPreserved g g :=
  ⟨rfl, rfl, rfl, rfl, rfl, fun _ hx => hx⟩

theorem groupPreserved_trans {g1 g2 g3 : FailureGroup} (h12 : GroupPreserved g1 g2)
    (h23 : GroupPreserved g2 g3) : GroupPreserved g1 g3 :=
  ⟨h23.1.trans h12.1, h23.2.1.trans h12.2.1, h23.2.2.1.trans h12.2.2.1,
   h23.2.2.2.1.trans h12.2.2.2.1, h23.2.2.2.2.1.trans h12.2.2.2.2.1,
   fun x hx => h23.2.2.2.2.2 x (h12.2.2.2.2.2 x hx)⟩

theorem groupPreserved_updateGroup (f : FailureRecord) (g : FailureGroup) :
    GroupPreserved g (updateGroup f g) := by
  obtain ⟨h1, h2, h3, h4, h5, -, h7⟩ := updateGroup_spec f g
  exact ⟨h1, h2, h3, h4, h5, fun x hx => by rw [h7]; exact List.mem_append_left _ hx⟩

theorem groupStep_preserves {now : Nat} {gb : String} {acc : List (String × FailureGroup)}
    {k2 : String} {g : FailureGroup} (h : lookupA acc k2 = some g) (f : FailureRecord) :
    ∃ g', lookupA (groupStep now gb acc f) k2 = some g' ∧ GroupPreserved g g' := by
  unfold groupStep
  by_cases hk : (groupKeyAndPattern gb f).1 = k2
  · rw [hk, if_pos (by rw [h]; rfl)]
    exact ⟨updateGroup f g, lookupA_updateA_self _ h, groupPreserved_updateGroup f g⟩
  · have hne : k2 ≠ (groupKeyAndPattern gb f).1 := fun e => hk e.symm
    by_cases hl : (lookupA acc (groupKeyAndPattern gb f).1).isSome
    · rw [if_pos hl]
      refine ⟨g, ?_, groupPreserved_refl g⟩
      rw [lookupA_updateA_ne _ _ _ _ hne]
      exact h
    · rw [if_neg hl]
      refine ⟨g, ?_, groupPreserved_refl g⟩
      rw [lookupA_updateA_ne _ _ _ _ hne]
      exact lookupA_append_left h

theorem foldl_groupStep_preserves {now : Nat} {gb : String} (fs : List FailureRecord) :
    ∀ (acc : List (String × FailureGroup)) (k2 : String) (g : FailureGroup),
      lookupA acc k2 = some g →
      ∃ g', lookupA (fs.foldl (groupStep now gb) acc) k2 = some g' ∧
        GroupPreserved g g' := by
  induction fs with
  | nil => exact fun acc k2 g h => ⟨g, h, groupPreserved_refl g⟩
  | cons x rest ih =>
    intro acc k2 g h
    obtain ⟨g1, hg1, hp1⟩ := groupStep_preserves h x
    obtain ⟨g', hg', hp'⟩ := ih (groupStep now gb acc x) k2 g1 hg1
    exact ⟨g', hg', groupPreserved_trans hp1 hp'⟩

theorem groupStep_lookup_key {now : Nat} {gb : String}
    (acc : List (String × FailureGroup)) (f : FailureRecord) :
    ∃ g0, lookupA (groupStep now gb acc f) (groupKeyAndPattern gb f).1 =
      some (updateGroup f g0) := by
  unfold groupStep
  cases hl : lookupA acc (groupKeyAndPattern gb f).1 with
  | some g0 =>
    rw [if_pos (show (some g0).isSome = true from rfl)]
    exact ⟨g0, lookupA_updateA_self _ hl⟩
  | none =>
    rw [if_neg (show ¬ (none : Option FailureGroup).isSome = true by simp)]
    refine ⟨mkNewGroup now acc.length (groupKeyAndPattern gb f) f, ?_⟩
    refine lookupA_updateA_self _ ?_
    rw [lookupA_append_right hl]
    simp [lookupA]

theorem foldl_groupStep_mem (now : Nat) (gb : String) (fs : List FailureRecord) :
    ∀ (acc : List (String × FailureGroup)) (f : FailureRecord), f ∈ fs →
      ∃ g, lookupA (fs.foldl (groupStep now gb) acc) (groupKeyAndPattern gb f).1 =
        some g ∧ f.id ∈ g.failures := by
  induction fs with
  | nil => intro acc f h; simp at h
  | cons x rest ih =>
    intro acc f hf
    rcases List.mem_cons.mp hf with rfl | hf
    · obtain ⟨g0, hg0⟩ := groupStep_lookup_key acc f
      obtain ⟨g', hg', hp'⟩ := foldl_groupStep_preserves rest _ _ _ hg0
      refine ⟨g', hg', ?_⟩
      refine hp'.2.2.2.2.2 f.id ?_
      rw [(updateGroup_spec f g0).2.2.2.2.2.2]
      simp
    · exact ih (groupStep now gb acc x) f hf

/-- Per-entry invariant of the grouping fold: any property of key/group
pairs that fresh groups satisfy and `updateGroup` maintains holds for
every entry of the accumulated map. -/
theorem foldl_group_invariant (now : Nat) (gb : String)
    (P : String → FailureGroup → Prop) (fs : List FailureRecord)
    (hupd : ∀ f k g, f ∈ fs → P k g → P k (updateGroup f g))
    (hnew : ∀ f n, f ∈ fs →
      P (groupKeyAndPattern gb f).1 (mkNewGroup now n (groupKeyAndPattern gb f) f)) :
    ∀ acc, (∀ p ∈ acc, P p.1 p.2) →
      ∀ p ∈ fs.foldl (groupStep now gb) acc, P p.1 p.2 := by
  induction fs with
  | nil => exact fun acc hacc p hp => hacc p hp
  | cons x rest ih =>
    intro acc hacc p hp
    refine ih (fun f k g hf => hupd f k g (List.mem_cons_of_mem _ hf))
      (fun f n hf => hnew f n (List.mem_cons_of_mem _ hf)) _ ?_ p hp
    intro q hq
    unfold groupStep at hq
    have hacc' : ∀ r ∈ (if (lookupA acc (groupKeyAndPattern gb x).1).isSome then acc
        else acc ++ [((groupKeyAndPattern gb x).1,
          mkNewGroup now acc.length (groupKeyAndPattern gb x) x)]), P r.1 r.2 := by
      intro r hr
      split at hr
      · exact hacc r hr
      · rcases List.mem_append.mp hr with hr | hr
        · exact hacc r hr
        · rcases List.mem_singleton.mp hr with rfl
          exact hnew x acc.length (List.mem_cons_self _ _)
    rcases mem_updateA _ hq with hq | ⟨r, hr, hrk, rfl⟩
    · exact hacc' q hq
    · exact hupd x r.1 r.2 (List.mem_cons_self _ _) (hacc' r hr)

theorem lookupA_mem_map_snd {α : Type} {m : List (String × α)} {k : String} {v : α}
    (h : lookupA m k = some v) : v ∈ m.map Prod.snd :=
  List.mem_map.mpr ⟨(k, v), lookupA_mem h, rfl⟩

/-- Claim C4: under `group_by = "pattern"` every failure lands in the
group keyed by `extractErrorPattern` of its message (digit runs to `N`,
quoted substrings to `VALUE` placeholders, then trim), the group's
stored `pattern` and name are derived from that key, and the scenario-A
message normalizes to `"AssertionError: expected N, got N"`. -/
theorem pattern_grouping_key :
    (∀ (now : Nat) (fs : List FailureRecord) (f : FailureRecord), f ∈ fs →
      ∃ g ∈ groupFailures now fs "pattern",
        g.pattern = extractErrorPattern f.error_message ∧
        g.name = extractErrorPattern f.error_message ++ " Failures" ∧
        f.id ∈ g.failures) ∧
    extractErrorPattern "AssertionError: expected 42, got 7" =
      "AssertionError: expected N, got N" := by
  constructor
  · intro now fs f hf
    obtain ⟨g, hg, hmem⟩ := foldl_groupStep_mem now "pattern" fs [] f hf
    have hkey : (groupKeyAndPattern "pattern" f).1 = extractErrorPattern f.error_message :=
      rfl
    have hinv := foldl_group_invariant now "pattern"
      (fun k g => g.pattern = k ∧ g.name = k ++ " Failures") fs
      (fun f' k g _ hP => by
        obtain ⟨-, h2, h3, -, -, -, -⟩ := updateGroup_spec f' g
        exact ⟨h3.trans hP.1, h2.trans hP.2⟩)
      (fun f' n _ => by
        constructor
        · show (groupKeyAndPattern "pattern" f').2 = (groupKeyAndPattern "pattern" f').1
          rfl
        · rfl)
      [] (by simp) _ (lookupA_mem hg)
    rw [hkey] at hg hinv
    exact ⟨g, lookupA_mem_map_snd hg, hinv.1, hinv.2, hmem⟩
  · decide

/-- Witness for C4: the sample failure (message
`"AssertionError: expected 42, got 7"`) in a one-element store. -/
theorem pattern_grouping_key_witness :
    ∃ g ∈ groupFailures 0 [sampleRecord] "pattern",
      g.pattern = extractErrorPattern sampleRecord.error_message ∧
      g.name = extractErrorPattern sampleRecord.error_message ++ " Failures" ∧
      sampleRecord.id ∈ g.failures :=
  pattern_grouping_key.1 0 [sampleRecord] sampleRecord (by decide)

/-- A failure whose message matches none of the error-type patterns. -/
def unmatchedRecord : FailureRecord :=
  { id := "2000", timestamp := 2000, status := "new", current_debug_step := 1,
    test_name := "test_weird", file_path := "tests/test_weird.py", line_number := 3,
    error_message := "weird failure", traceback := "tb", locals := [] }

/-- Counterexample to C8 as stated: grouping the unmatched failure by
error type yields the group named `"UnknownError Failures"` whose
`common_error_type` is `"Unknown Error"` (with a space), not
`"UnknownError"` as the claim asserts. -/
theorem unknown_error_type_counterexample :
    (groupFailures 0 [unmatchedRecord] "error_type").map
        (fun g => (g.name, g.common_error_type)) =
      [("UnknownError Failures", "Unknown Error")] ∧
    ¬ "Unknown Error" = "UnknownError" := by
  constructor
  · decide
  · decide

/-- Claim C8 (amended): a failure whose message matches no error-type
pattern joins the group keyed `"UnknownError"` (named
`"UnknownError Failures"`), and — provided no failure in the set has the
literal extracted type `"UnknownError"` — that group's
`common_error_type` is the fallback `"Unknown Error"` (with a space)
produced by `determineErrorType`, not the key `"UnknownError"`. -/
theorem unknown_error_group_fallback (now : Nat) (fs : List FailureRecord)
    (f : FailureRecord) (hmem : f ∈ fs) (hf : errorTypeMatch f.error_message = none)
    (hall : ∀ x ∈ fs, errorTypeMatch x.error_message ≠ some "UnknownError") :
    ∃ g ∈ groupFailures now fs "error_type",
      g.name = "UnknownError Failures" ∧ f.id ∈ g.failures ∧
      g.common_error_type = "Unknown Error" := by
  obtain ⟨g, hg, hgmem⟩ := foldl_groupStep_mem now "error_type" fs [] f hmem
  have hkey : (groupKeyAndPattern "error_type" f).1 = "UnknownError" := by
    show (if "error_type" = "error_type" then
      (match errorTypeMatch f.error_message with
       | some t => t
       | none => "UnknownError",
       extractErrorPattern f.error_message)
      else if "error_type" = "file_path" then
        (f.file_path, "Failures in " ++ basename f.file_path)
      else if "error_type" = "pattern" then
        (extractErrorPattern f.error_message, extractErrorPattern f.error_message)
      else ("", "")).1 = "UnknownError"
    rw [if_pos rfl, hf]
  have hinv := foldl_group_invariant now "error_type"
    (fun k g => g.name = k ++ " Failures" ∧
      (k = "UnknownError" → g.common_error_type = "Unknown Error")) fs
    (fun f' k g _ hP => by
      obtain ⟨-, h2, -, h4, -, -, -⟩ := updateGroup_spec f' g
      exact ⟨h2.trans hP.1, fun hk => h4.trans (hP.2 hk)⟩)
    (fun f' n hf' => by
      refine ⟨rfl, fun hk => ?_⟩
      show determineErrorType f' = "Unknown Error"
      unfold determineErrorType
      cases hx : errorTypeMatch f'.error_message with
      | none => rfl
      | some t =>
        exfalso
        have hkt : (groupKeyAndPattern "error_type" f').1 = t := by
          show (if "error_type" = "error_type" then
            (match errorTypeMatch f'.error_message with
             | some u => u
             | none => "UnknownError",
             extractErrorPattern f'.error_message)
            else if "error_type" = "file_path" then
              (f'.file_path, "Failures in " ++ basename f'.file_path)
            else if "error_type" = "pattern" then
              (extractErrorPattern f'.error_message, extractErrorPattern f'.error_message)
            else ("", "")).1 = t
          rw [if_pos rfl, hx]
        exact hall f' hf' (by rw [hx, show t = "UnknownError" from hkt.symm.trans hk]))
    [] (by simp) _ (lookupA_mem hg)
  rw [hkey] at hg hinv
  exact ⟨g, lookupA_mem_map_snd hg, hinv.1, hgmem, hinv.2 rfl⟩

/-- Witness for the amended C8 at the one-element unmatched store. -/
theorem unknown_error_group_fallback_witness :
    ∃ g ∈ groupFailures 0 [unmatchedRecord] "error_type",
      g.name = "UnknownError Failures" ∧ unmatchedRecord.id ∈ g.failures ∧
      g.common_error_type = "Unknown Error" :=
  unknown_error_group_fallback 0 [unmatchedRecord] unmatchedRecord (by decide)
    (by decide) (by decide)

/-! ### Claim C5: triage priority and recommendation bands -/

/-- Claim C5: `priority = count + (5 if last_seen within 24h of now)
+ (10 if the common error type is critical)`, and the triage text is the
URGENT / HIGH / MEDIUM / LOW template exactly on the bands `> 15`,
`(10, 15]`, `(5, 10]` and `≤ 5` of that priority (the four bands
partition the range, so each text appears exactly on its band). -/
theorem triage_priority_bands (now : Nat) (g : FailureGroup) :
    calculatePriority now g =
      g.count + (if now - g.last_seen < 86400000 then 5 else 0) +
        (if g.common_error_type = "SecurityError" ∨
            g.common_error_type = "DataCorruptionError" then 10 else 0) ∧
    (15 < calculatePriority now g →
      generateTriageAction now g =
        "URGENT: Investigate immediately - " ++ g.common_error_type ++ " affecting "
          ++ toString g.count ++ " tests") ∧
    (10 < calculatePriority now g → calculatePriority now g ≤ 15 →
      generateTriageAction now g =
        "HIGH: Assign to developer for investigation - likely a regression in "
          ++ g.pattern) ∧
    (5 < calculatePriority now g → calculatePriority now g ≤ 10 →
      generateTriageAction now g =
        "MEDIUM: Schedule investigation - " ++ g.common_error_type
          ++ " needs attention") ∧
    (calculatePriority now g ≤ 5 →
      generateTriageAction now g =
        "LOW: Monitor for increased frequency - " ++ toString g.count
          ++ " occurrences of " ++ g.common_error_type) := by
  have hmem : (["SecurityError", "DataCorruptionError"].contains g.common_error_type)
      = (g.common_error_type = "SecurityError" ∨
         g.common_error_type = "DataCorruptionError" : Bool) := by
    by_cases h1 : g.common_error_type = "SecurityError"
    · simp [h1]
    · by_cases h2 : g.common_error_type = "DataCorruptionError"
      · simp [h1, h2]
      · simp [h1, h2]
  refine ⟨?_, ?_, ?_, ?_, ?_⟩
  · unfold calculatePriority
    rw [hmem]
    by_cases h1 : now - g.last_seen < 86400000 <;>
      by_cases h2 : g.common_error_type = "SecurityError" ∨
        g.common_error_type = "DataCorruptionError" <;>
      simp [h1, h2]
  · intro h15
    unfold generateTriageAction
    rw [if_pos h15]
  · intro h10 h15
    unfold generateTriageAction
    rw [if_neg (by omega), if_pos h10]
  · intro h5 h10
    unfold generateTriageAction
    rw [if_neg (by omega), if_neg (by omega), if_pos h5]
  · intro h5
    unfold generateTriageAction
    rw [if_neg (by omega), if_neg (by omega), if_neg (by omega)]

/-- A concrete group seen long ago with a non-critical type (priority =
count = 2, the LOW band). -/
def lowGroup : FailureGroup :=
  { id := "group_0_0", name := "TypeError Failures", pattern := "TypeError: bad",
    count := 2, failures := ["1", "2"], common_error_type := "TypeError",
    root_cause_hypothesis := "h", first_seen := 0, last_seen := 0 }

/-- A concrete critical recent group (priority = 1 + 5 + 10 = 16, URGENT). -/
def urgentGroup : FailureGroup :=
  { id := "group_0_1", name := "SecurityError Failures", pattern := "SecurityError: x",
    count := 1, failures := ["3"], common_error_type := "SecurityError",
    root_cause_hypothesis := "h", first_seen := 500000000, last_seen := 500000000 }

/-- Witness for C5: the priority formula and two bands exercised at
concrete groups — `lowGroup` (priority 2, LOW text) at a late instant and
`urgentGroup` (priority 16, URGENT text) at a near instant. -/
theorem triage_priority_bands_witness :
    calculatePriority 500000000 lowGroup =
      lowGroup.count + (if 500000000 - lowGroup.last_seen < 86400000 then 5 else 0) +
        (if lowGroup.common_error_type = "SecurityError" ∨
            lowGroup.common_error_type = "DataCorruptionError" then 10 else 0) ∧
    generateTriageAction 500000000 lowGroup =
      "LOW: Monitor for increased frequency - " ++ toString lowGroup.count
        ++ " occurrences of " ++ lowGroup.common_error_type ∧
    generateTriageAction 500000000 urgentGroup =
      "URGENT: Investigate immediately - " ++ urgentGroup.common_error_type
        ++ " affecting " ++ toString urgentGroup.count ++ " tests" :=
  ⟨(triage_priority_bands 500000000 lowGroup).1,
   (triage_priority_bands 500000000 lowGroup).2.2.2.2 (by decide),
   (triage_priority_bands 500000000 urgentGroup).2.1 (by decide)⟩

/-! ### Claim C9: `get_failure_info` on absent and present ids -/

/-- Claim C9: for an absent id `get_failure_info` fails with the
not-found error naming the id (no crash, no empty success); for any
present id whose `current_debug_step` is in `[1,9]` (the C2 invariant) it
returns the failure's data together with its debugging progress. -/
theorem get_failure_info_not_found :
    (∀ st fid, lookupA st.failures fid = none →
      getFailureInfo st fid =
        .error (.notFound ("Failure with ID " ++ fid ++ " not found"))) ∧
    (∀ st fid f, lookupA st.failures fid = some f →
      1 ≤ f.current_debug_step → f.current_debug_step ≤ 9 →
      ∃ r, getFailureInfo st fid = .ok r ∧
        r.failure.id = f.id ∧ r.failure.status = f.status ∧
        r.failure.error_message = f.error_message ∧
        r.failure.traceback = f.traceback ∧
        r.debugging.current_principle.number = f.current_debug_step ∧
        r.debugging.progress_total = 9) := by
  constructor
  · intro st fid h
    unfold getFailureInfo
    rw [h]
  · intro st fid f hf h1 h9
    simp only [getFailureInfo, hf]
    obtain ⟨n, hn⟩ : ∃ n, f.current_debug_step = n := ⟨_, rfl⟩
    rw [hn] at h1 h9 ⊢
    interval_cases n <;>
      exact ⟨_, rfl, rfl, rfl, rfl, rfl, rfl, rfl⟩

/-- Witness for C9: the empty store rejects `"nonexistent-id"` with the
not-found error, and `storesA` serves its registered failure. -/
theorem get_failure_info_not_found_witness :
    getFailureInfo initialStores "nonexistent-id" =
      .error (.notFound ("Failure with ID " ++ "nonexistent-id" ++ " not found")) ∧
    ∃ r, getFailureInfo storesA "1000" = .ok r ∧
      r.failure.id = sampleRecord.id ∧ r.failure.status = sampleRecord.status ∧
      r.failure.error_message = sampleRecord.error_message ∧
      r.failure.traceback = sampleRecord.traceback ∧
      r.debugging.current_principle.number = sampleRecord.current_debug_step ∧
      r.debugging.progress_total = 9 :=
  ⟨get_failure_info_not_found.1 initialStores "nonexistent-id" (by decide),
   get_failure_info_not_found.2 storesA "1000" sampleRecord (by decide)
     (by decide) (by decide)⟩

/-! ### Claim C10: unrecognized `time_range` values behave like `all` -/

/-- Claim C10: for a `time_range` outside `{all, today, week, month}`
(and non-empty, since JS `||` sends the empty string to the default) the
time filter admits every failure, and the analyze output coincides with
the `time_range = "all"` output in every field except the echoed
`time_range`. -/
theorem analyze_unknown_time_range (now : Nat) (store : List FailureRecord)
    (gb : Option String) (inc : Option Bool) (tr : String)
    (h1 : tr ≠ "all") (h2 : tr ≠ "today") (h3 : tr ≠ "week") (h4 : tr ≠ "month")
    (h5 : tr ≠ "") :
    (∀ ts : Nat, timeKeep now tr ts = true) ∧
    (executeAnalyze now store gb (some tr) inc).total_failures =
      (executeAnalyze now store gb (some "all") inc).total_failures ∧
    (executeAnalyze now store gb (some tr) inc).group_count =
      (executeAnalyze now store gb (some "all") inc).group_count ∧
    (executeAnalyze now store gb (some tr) inc).groups =
      (executeAnalyze now store gb (some "all") inc).groups ∧
    (executeAnalyze now store gb (some tr) inc).insights =
      (executeAnalyze now store gb (some "all") inc).insights ∧
    (executeAnalyze now store gb (some tr) inc).group_by =
      (executeAnalyze now store gb (some "all") inc).group_by ∧
    (executeAnalyze now store gb (some tr) inc).time_range = tr := by
  have hkeep : ∀ ts : Nat, timeKeep now tr ts = true := by
    intro ts
    unfold timeKeep
    rw [if_pos h1, if_neg h2, if_neg h3, if_neg h4]
  have hkeepall : ∀ ts : Nat, timeKeep now "all" ts = true := by
    intro ts
    unfold timeKeep
    rw [if_neg (fun h => h rfl)]
  have htr : jsOrStr (some tr) "all" = tr := by
    simp only [jsOrStr]
    rw [if_neg h5]
  have hfk : ∀ (b : Bool) (f : FailureRecord),
      filterKeep now tr b f = filterKeep now "all" b f := by
    intro b f
    unfold filterKeep
    by_cases hres : ¬ b ∧ f.status = "resolved"
    · rw [if_pos hres, if_pos hres]
    · rw [if_neg hres, if_neg hres, hkeep, hkeepall]
  have hfilter : store.filter (filterKeep now tr (inc.getD false)) =
      store.filter (filterKeep now "all" (inc.getD false)) :=
    List.filter_congr (fun f _ => hfk _ f)
  refine ⟨hkeep, ?_, ?_, ?_, ?_, ?_, ?_⟩ <;>
    simp only [executeAnalyze, htr, show jsOrStr (some "all") "all" = "all" from rfl,
      hfilter]

/-- A resolved failure, filtered out by the default
`include_resolved = false`. -/
def resolvedRecord : FailureRecord :=
  { id := "3000", timestamp := 3000, status := "resolved", current_debug_step := 2,
    test_name := "test_done", file_path := "tests/test_done.py", line_number := 9,
    error_message := "TypeError: bad operand", traceback := "tb", locals := [] }

/-- Witness for C10 at a concrete store and `time_range = "year"`. -/
theorem analyze_unknown_time_range_witness :
    timeKeep 0 "year" 1234 = true ∧
    (executeAnalyze 0 [sampleRecord, resolvedRecord] none (some "year") none).total_failures =
      (executeAnalyze 0 [sampleRecord, resolvedRecord] none (some "all") none).total_failures ∧
    (executeAnalyze 0 [sampleRecord, resolvedRecord] none (some "year") none).groups =
      (executeAnalyze 0 [sampleRecord, resolvedRecord] none (some "all") none).groups ∧
    (executeAnalyze 0 [sampleRecord, resolvedRecord] none (some "year") none).insights =
      (executeAnalyze 0 [sampleRecord, resolvedRecord] none (some "all") none).insights ∧
    (executeAnalyze 0 [sampleRecord, resolvedRecord] none (some "year") none).time_range =
      "year" := by
  have h := analyze_unknown_time_range 0 [sampleRecord, resolvedRecord] none none "year"
    (by decide) (by decide) (by decide) (by decide) (by decide)
  exact ⟨h.1 1234, h.2.1, h.2.2.2.1, h.2.2.2.2.1, h.2.2.2.2.2.2⟩

/-! ### Decimal representation: `Nat.repr` is injective

The group ids embed `Date.now()` via `toString`; to show that two runs at
different instants generate different ids we prove that the decimal
string representation of a natural number determines the number. -/

/-- Decimal digits of `n`, most significant first. -/
def decDigits (n : Nat) : List Nat :=
  if _h : n < 10 then [n] else decDigits (n / 10) ++ [n % 10]
termination_by n
decreasing_by omega

/-- Reassemble a number from decimal digits (a retraction of `decDigits`). -/
def ofDec (ds : List Nat) : Nat :=
  ds.foldl (fun a d => a * 10 + d) 0

theorem ofDec_append_one (ds : List Nat) (d : Nat) :
    ofDec (ds ++ [d]) = ofDec ds * 10 + d := by
  simp [ofDec, List.foldl_append]

theorem ofDec_decDigits : ∀ n, ofDec (decDigits n) = n := by
  intro n
  induction n using Nat.strong_induction_on with
  | _ n ih =>
    by_cases h : n < 10
    · rw [decDigits, dif_pos h]
      simp [ofDec]
    · rw [decDigits, dif_neg h, ofDec_append_one, ih (n / 10) (by omega)]
      omega

theorem decDigits_lt : ∀ n, ∀ d ∈ decDigits n, d < 10 := by
  intro n
  induction n using Nat.strong_induction_on with
  | _ n ih =>
    intro d hd
    by_cases h : n < 10
    · rw [decDigits, dif_pos h] at hd
      rcases List.mem_singleton.mp hd with rfl
      exact h
    · rw [decDigits, dif_neg h] at hd
      rcases List.mem_append.mp hd with hd | hd
      · exact ih (n / 10) (by omega) d hd
      · rcases List.mem_singleton.mp hd with rfl
        exact Nat.mod_lt _ (by omega)

theorem toDigitsCore_spec : ∀ (fuel n : Nat) (acc : List Char), n < fuel →
    Nat.toDigitsCore 10 fuel n acc = (decDigits n).map Nat.digitChar ++ acc := by
  intro fuel
  induction fuel with
  | zero => intro n acc h; omega
  | succ fuel ih =>
    intro n acc h
    by_cases h0 : n / 10 = 0
    · have hn : n < 10 := by omega
      simp only [Nat.toDigitsCore, h0, if_true]
      rw [decDigits, dif_pos hn, Nat.mod_eq_of_lt hn]
      rfl
    · have hn : ¬ n < 10 := by omega
      simp only [Nat.toDigitsCore, h0, if_false]
      rw [ih (n / 10) _ (by omega)]
      conv_rhs => rw [decDigits]
      rw [dif_neg hn, List.map_append, List.append_assoc]
      simp

theorem digitChar_inj_fin : ∀ a b : Fin 10,
    Nat.digitChar a.val = Nat.digitChar b.val → a = b := by decide

theorem map_digitChar_inj : ∀ (xs ys : List Nat), (∀ x ∈ xs, x < 10) →
    (∀ y ∈ ys, y < 10) → xs.map Nat.digitChar = ys.map Nat.digitChar → xs = ys := by
  intro xs
  induction xs with
  | nil =>
    intro ys _ _ h
    cases ys with
    | nil => rfl
    | cons y ys => simp at h
  | cons x xs ih =>
    intro ys hx hy h
    cases ys with
    | nil => simp at h
    | cons y ys =>
      simp only [List.map_cons, List.cons.injEq] at h
      have hxy : x = y := by
        have hfin := digitChar_inj_fin ⟨x, hx x (List.mem_cons_self _ _)⟩
          ⟨y, hy y (List.mem_cons_self _ _)⟩ h.1
        exact congrArg Fin.val hfin
      rw [hxy, ih ys (fun a ha => hx a (List.mem_cons_of_mem _ ha))
        (fun a ha => hy a (List.mem_cons_of_mem _ ha)) h.2]

theorem natRepr_injective {m n : Nat} (h : Nat.repr m = Nat.repr n) : m = n := by
  have hdata : Nat.toDigits 10 m = Nat.toDigits 10 n := congrArg String.data h
  unfold Nat.toDigits at hdata
  rw [toDigitsCore_spec (m + 1) m [] (by omega),
      toDigitsCore_spec (n + 1) n [] (by omega)] at hdata
  simp only [List.append_nil] at hdata
  have hdec : decDigits m = decDigits n :=
    map_digitChar_inj _ _ (decDigits_lt m) (decDigits_lt n) hdata
  calc m = ofDec (decDigits m) := (ofDec_decDigits m).symm
    _ = ofDec (decDigits n) := by rw [hdec]
    _ = n := ofDec_decDigits n

theorem natToString_injective {m n : Nat} (h : toString m = toString n) : m = n :=
  natRepr_injective h

/-! ### Claim C6: re-analysis determinism of content, freshness of ids -/

theorem stringDataInj {a b : String} (h : a.data = b.data) : a = b := by
  cases a
  cases b
  exact congrArg String.mk h

/-- Two group ids generated at the same ordinal agree only when the two
`Date.now()` values have the same decimal representation. -/
theorem mkGroupId_time_inj {t1 t2 k : Nat} (h : mkGroupId t1 k = mkGroupId t2 k) :
    t1 = t2 := by
  have hd := congrArg String.data h
  simp only [mkGroupId, String.data_append] at hd
  have h1 := List.append_cancel_right hd
  have h2 := List.append_cancel_right h1
  have h3 := List.append_cancel_left h2
  exact natToString_injective (stringDataInj h3)

/-- The time-independent content of a group: everything except the id. -/
def groupContent (g : FailureGroup) :
    String × String × Nat × List String × String × String × Nat × Nat :=
  (g.name, g.pattern, g.count, g.failures, g.common_error_type,
   g.root_cause_hypothesis, g.first_seen, g.last_seen)

/-- Correspondence between the group maps of two analysis runs at
instants `t1` and `t2`: same keys, same content, ids generated at the
same ordinal of the respective run. -/
def GroupRel (t1 t2 : Nat) (p q : String × FailureGroup) : Prop :=
  p.1 = q.1 ∧ groupContent p.2 = groupContent q.2 ∧
  ∃ k, p.2.id = mkGroupId t1 k ∧ q.2.id = mkGroupId t2 k

/-- Correspondence between the group lists of two runs. -/
def GroupRelG (t1 t2 : Nat) (g1 g2 : FailureGroup) : Prop :=
  groupContent g1 = groupContent g2 ∧
  ∃ k, g1.id = mkGroupId t1 k ∧ g2.id = mkGroupId t2 k

theorem updateGroup_content (f : FailureRecord) (g : FailureGroup) :
    groupContent (updateGroup f g) =
      (g.name, g.pattern, g.count + 1, g.failures ++ [f.id], g.common_error_type,
       g.root_cause_hypothesis,
       (if f.timestamp < g.first_seen then f.timestamp else g.first_seen),
       (if g.last_seen < f.timestamp then f.timestamp else g.last_seen)) := by
  by_cases h1 : f.timestamp < g.first_seen <;>
    by_cases h2 : g.last_seen < f.timestamp <;>
      simp [updateGroup, groupContent, h1, h2]

theorem updateGroup_content_congr {g1 g2 : FailureGroup}
    (h : groupContent g1 = groupContent g2) (f : FailureRecord) :
    groupContent (updateGroup f g1) = groupContent (updateGroup f g2) := by
  have h' := h
  simp only [groupContent, Prod.mk.injEq] at h'
  obtain ⟨e1, e2, e3, e4, e5, e6, e7, e8⟩ := h'
  rw [updateGroup_content, updateGroup_content, e1, e2, e3, e4, e5, e6, e7, e8]

theorem content_count_eq {g1 g2 : FailureGroup} (h : groupContent g1 = groupContent g2) :
    g1.count = g2.count := by
  have h' := h
  simp only [groupContent, Prod.mk.injEq] at h'
  exact h'.2.2.1

theorem forall₂_append_pair {α β : Type} {R : α → β → Prop} :
    ∀ {l1 u1 : List α} {l2 u2 : List β}, List.Forall₂ R l1 l2 → List.Forall₂ R u1 u2 →
      List.Forall₂ R (l1 ++ u1) (l2 ++ u2) := by
  intro l1 u1 l2 u2 h hu
  induction h with
  | nil => exact hu
  | cons hr _ ih => exact List.Forall₂.cons hr ih

theorem forall₂_length_eq {α β : Type} {R : α → β → Prop} :
    ∀ {l1 : List α} {l2 : List β}, List.Forall₂ R l1 l2 → l1.length = l2.length := by
  intro l1 l2 h
  induction h with
  | nil => rfl
  | cons _ _ ih => simp [ih]

theorem lookupA_isSome_congr {t1 t2 : Nat} :
    ∀ {l1 l2 : List (String × FailureGroup)}, List.Forall₂ (GroupRel t1 t2) l1 l2 →
      ∀ k, (lookupA l1 k).isSome = (lookupA l2 k).isSome := by
  intro l1 l2 h
  induction h with
  | nil => intro k; rfl
  | @cons p q l1' l2' hr _ ih =>
    intro k
    by_cases hk : p.1 = k
    · rw [lookupA, lookupA, if_pos hk, if_pos (hr.1 ▸ hk)]
      rfl
    · rw [lookupA, lookupA, if_neg hk, if_neg (hr.1 ▸ hk)]
      exact ih k

theorem updateA_forall₂ {t1 t2 : Nat} (f : FailureRecord) (k : String) :
    ∀ {l1 l2 : List (String × FailureGroup)}, List.Forall₂ (GroupRel t1 t2) l1 l2 →
      List.Forall₂ (GroupRel t1 t2)
        (updateA (updateGroup f) l1 k) (updateA (updateGroup f) l2 k) := by
  intro l1 l2 h
  induction h with
  | nil => exact List.Forall₂.nil
  | @cons p q l1' l2' hr hrest ih =>
    by_cases hk : p.1 = k
    · rw [updateA, updateA, if_pos hk, if_pos (hr.1 ▸ hk)]
      refine List.Forall₂.cons ⟨hr.1, updateGroup_content_congr hr.2.1 f, ?_⟩ hrest
      obtain ⟨n, hn1, hn2⟩ := hr.2.2
      exact ⟨n, (updateGroup_spec f p.2).1.trans hn1, (updateGroup_spec f q.2).1.trans hn2⟩
    · rw [updateA, updateA, if_neg hk, if_neg (hr.1 ▸ hk)]
      exact List.Forall₂.cons hr ih

theorem groupStep_forall₂ {t1 t2 : Nat} {gb : String} (f : FailureRecord)
    {acc1 acc2 : List (String × FailureGroup)}
    (h : List.Forall₂ (GroupRel t1 t2) acc1 acc2) :
    List.Forall₂ (GroupRel t1 t2) (groupStep t1 gb acc1 f) (groupStep t2 gb acc2 f) := by
  unfold groupStep
  have hsome := lookupA_isSome_congr h (groupKeyAndPattern gb f).1
  by_cases hs : (lookupA acc1 (groupKeyAndPattern gb f).1).isSome
  · rw [if_pos hs, if_pos (hsome ▸ hs)]
    exact updateA_forall₂ f _ h
  · rw [if_neg hs, if_neg (by rw [← hsome]; exact hs)]
    refine updateA_forall₂ f _ (forall₂_append_pair h ?_)
    refine List.Forall₂.cons ⟨rfl, rfl, ⟨acc1.length, rfl, ?_⟩⟩ List.Forall₂.nil
    show mkGroupId t2 acc2.length = mkGroupId t2 acc1.length
    rw [forall₂_length_eq h]

theorem foldl_groupStep_forall₂ {t1 t2 : Nat} {gb : String} (fs : List FailureRecord) :
    ∀ {acc1 acc2 : List (String × FailureGroup)},
      List.Forall₂ (GroupRel t1 t2) acc1 acc2 →
      List.Forall₂ (GroupRel t1 t2)
        (fs.foldl (groupStep t1 gb) acc1) (fs.foldl (groupStep t2 gb) acc2) := by
  induction fs with
  | nil => exact fun h => h
  | cons x rest ih => exact fun h => ih (groupStep_forall₂ x h)

theorem map_snd_forall₂ {t1 t2 : Nat} :
    ∀ {l1 l2 : List (String × FailureGroup)}, List.Forall₂ (GroupRel t1 t2) l1 l2 →
      List.Forall₂ (GroupRelG t1 t2) (l1.map Prod.snd) (l2.map Prod.snd) := by
  intro l1 l2 h
  induction h with
  | nil => exact List.Forall₂.nil
  | cons hr _ ih => exact List.Forall₂.cons ⟨hr.2.1, hr.2.2⟩ ih

theorem orderedInsert_forall₂ {α : Type} {R : α → α → Prop} {le : α → α → Bool}
    (hcomp : ∀ a b a' b', R a b → R a' b' → le a a' = le b b') {a b : α} (hab : R a b) :
    ∀ {l1 l2 : List α}, List.Forall₂ R l1 l2 →
      List.Forall₂ R (orderedInsert le a l1) (orderedInsert le b l2) := by
  intro l1 l2 h
  induction h with
  | nil => exact List.Forall₂.cons hab List.Forall₂.nil
  | @cons p q l1' l2' hr hrest ih =>
    show List.Forall₂ R (if le a p then a :: p :: l1' else p :: orderedInsert le a l1')
      (if le b q then b :: q :: l2' else q :: orderedInsert le b l2')
    rw [hcomp a b p q hab hr]
    by_cases hle : le b q = true
    · rw [if_pos hle, if_pos hle]
      exact List.Forall₂.cons hab (List.Forall₂.cons hr hrest)
    · rw [if_neg hle, if_neg hle]
      exact List.Forall₂.cons hr ih

theorem stableSort_forall₂ {α : Type} {R : α → α → Prop} {le : α → α → Bool}
    (hcomp : ∀ a b a' b', R a b → R a' b' → le a a' = le b b') :
    ∀ {l1 l2 : List α}, List.Forall₂ R l1 l2 →
      List.Forall₂ R (stableSort le l1) (stableSort le l2) := by
  intro l1 l2 h
  induction h with
  | nil => exact List.Forall₂.nil
  | cons hr _ ih => exact orderedInsert_forall₂ hcomp hr ih

theorem forall₂_map_groupContent {t1 t2 : Nat} :
    ∀ {l1 l2 : List FailureGroup}, List.Forall₂ (GroupRelG t1 t2) l1 l2 →
      l1.map groupContent = l2.map groupContent := by
  intro l1 l2 h
  induction h with
  | nil => rfl
  | cons hr _ ih => simp [hr.1, ih]

theorem forall₂_ids_ne {t1 t2 : Nat} (hne : t1 ≠ t2) :
    ∀ {l1 l2 : List FailureGroup}, List.Forall₂ (GroupRelG t1 t2) l1 l2 →
      List.Forall₂ (fun g1 g2 => g1.id ≠ g2.id) l1 l2 := by
  intro l1 l2 h
  refine List.Forall₂.imp (fun g1 g2 hr => ?_) h
  obtain ⟨-, k, h1, h2⟩ := hr
  intro he
  exact hne (mkGroupId_time_inj ((h1.symm.trans he).trans h2))

/-- Claim C6: two `analyze(group_by="error_type")` runs on an unchanged
store (default `time_range`, default `include_resolved`) at instants
`t1` and `t2` produce the same filtered total and groups with identical
content — name, pattern, count, member-id list, common error type,
hypothesis, first/last seen — while the generated group ids differ
pairwise whenever the instants differ. -/
theorem regroup_content_deterministic_ids_fresh (store : List FailureRecord)
    (t1 t2 : Nat) :
    (executeAnalyze t1 store (some "error_type") none none).total_failures =
      (executeAnalyze t2 store (some "error_type") none none).total_failures ∧
    (executeAnalyze t1 store (some "error_type") none none).groups.map groupContent =
      (executeAnalyze t2 store (some "error_type") none none).groups.map groupContent ∧
    (t1 ≠ t2 → List.Forall₂ (fun g1 g2 => g1.id ≠ g2.id)
      (executeAnalyze t1 store (some "error_type") none none).groups
      (executeAnalyze t2 store (some "error_type") none none).groups) := by
  have hfk : ∀ (t t' : Nat) (f : FailureRecord),
      filterKeep t "all" false f = filterKeep t' "all" false f := by
    intro t t' f
    unfold filterKeep
    by_cases hres : ¬ false = true ∧ f.status = "resolved"
    · rw [if_pos hres, if_pos hres]
    · rw [if_neg hres, if_neg hres]
      unfold timeKeep
      rw [if_neg (fun h => h rfl), if_neg (fun h => h rfl)]
  have hfilter : store.filter (filterKeep t1 "all" false) =
      store.filter (filterKeep t2 "all" false) :=
    List.filter_congr (fun f _ => hfk t1 t2 f)
  have hg1 : (executeAnalyze t1 store (some "error_type") none none).groups =
      stableSort (fun a b => b.count ≤ a.count)
        (groupFailures t1 (store.filter (filterKeep t1 "all" false)) "error_type") := rfl
  have hg2 : (executeAnalyze t2 store (some "error_type") none none).groups =
      stableSort (fun a b => b.count ≤ a.count)
        (groupFailures t2 (store.filter (filterKeep t2 "all" false)) "error_type") := rfl
  have hcomp : ∀ a b a' b' : FailureGroup, GroupRelG t1 t2 a b → GroupRelG t1 t2 a' b' →
      (decide (a'.count ≤ a.count)) = (decide (b'.count ≤ b.count)) := by
    intro a b a' b' hab hab'
    rw [content_count_eq hab.1, content_count_eq hab'.1]
  have hrel : List.Forall₂ (GroupRelG t1 t2)
      (executeAnalyze t1 store (some "error_type") none none).groups
      (executeAnalyze t2 store (some "error_type") none none).groups := by
    rw [hg1, hg2, hfilter]
    refine stableSort_forall₂ hcomp ?_
    unfold groupFailures
    exact map_snd_forall₂ (foldl_groupStep_forall₂ _ List.Forall₂.nil)
  refine ⟨?_, forall₂_map_groupContent hrel, fun hne => forall₂_ids_ne hne hrel⟩
  show (store.filter (filterKeep t1 "all" false)).length =
    (store.filter (filterKeep t2 "all" false)).length
  rw [hfilter]

/-- Witness for C6 at a concrete two-element store and instants 5 ≠ 6. -/
theorem regroup_content_deterministic_ids_fresh_witness :
    (executeAnalyze 5 [sampleRecord, unmatchedRecord] (some "error_type") none
        none).total_failures =
      (executeAnalyze 6 [sampleRecord, unmatchedRecord] (some "error_type") none
        none).total_failures ∧
    (executeAnalyze 5 [sampleRecord, unmatchedRecord] (some "error_type") none
        none).groups.map groupContent =
      (executeAnalyze 6 [sampleRecord, unmatchedRecord] (some "error_type") none
        none).groups.map groupContent ∧
    List.Forall₂ (fun g1 g2 => g1.id ≠ g2.id)
      (executeAnalyze 5 [sampleRecord, unmatchedRecord] (some "error_type") none
        none).groups
      (executeAnalyze 6 [sampleRecord, unmatchedRecord] (some "error_type") none
        none).groups := by
  have h := regroup_content_deterministic_ids_fresh [sampleRecord, unmatchedRecord] 5 6
  exact ⟨h.1, h.2.1, h.2.2 (by omega)⟩

end Pytest
